import Mathlib

/-!
Verification development for the gbjson GenBank <-> JSON conversion library.

The source (gbjson.cpp and the older copy bundled in json2gb.cpp) is embedded
shallowly: C++ `std::string` becomes `List Char`, the line-reading
`std::stringstream` + `safeGetline` pair becomes an explicit stream state
`GBStream`, and the rapidjson writer/reader pair is abstracted by the event
stream protocol (`JEvent`) that both engines speak.  Recursive parsing
functions take an explicit fuel parameter (first argument); fuel exhaustion is
the distinguished failure `GBFail.outOfFuel`, which is proved unreachable for
the fuel budget used by `gb2json`.  The partiality of `std::string::substr`
(throws `std::out_of_range` when the start position exceeds the size) and of
`std::string::back` (undefined on an empty string) is made explicit through
the failures `GBFail.substrOOB` and `GBFail.backOnEmpty`.
-/

namespace GBJ

/-! ### Character classification (C locale, as used by the source) -/

/-- C `isspace` in the default locale. -/
def isspaceC (c : Char) : Bool :=
  c = ' ' || c = '\t' || c = '\n' || c = '\x0b' || c = '\x0c' || c = '\r'

/-- C `isdigit`. -/
def isdigitC (c : Char) : Bool :=
  '0' ≤ c && c ≤ '9'

/-- C `isalpha` in the default locale. -/
def isalphaC (c : Char) : Bool :=
  ('a' ≤ c && c ≤ 'z') || ('A' ≤ c && c ≤ 'Z')

/-! ### String handling (gbjson.cpp, "String handling" section) -/

/-- `makeSpaces`: a run of `n` spaces.  The C++ version takes an `int`; it is
only ever called with non-negative arguments in the embedded code paths, and
we clamp negative values to zero. -/
def makeSpaces (n : Int) : List Char :=
  List.replicate n.toNat ' '

/-- `stringTrimLeft`: erase leading whitespace. -/
def stringTrimLeft (s : List Char) : List Char :=
  s.dropWhile (fun c => isspaceC c)

/-- `stringTrimRight`: erase trailing whitespace. -/
def stringTrimRight (s : List Char) : List Char :=
  (s.reverse.dropWhile (fun c => isspaceC c)).reverse

/-- `stringTrim`: trim both ends. -/
def stringTrim (s : List Char) : List Char :=
  stringTrimRight (stringTrimLeft s)

/-- `removeSpaces`: remove every `' '` character (only the space character,
as per `std::remove(str.begin(), str.end(), ' ')`). -/
def removeSpaces (s : List Char) : List Char :=
  s.filter (fun c => c ≠ ' ')

/-- One step of `safeGetline` on a raw character sequence: returns the line
(content up to the first line terminator, handling `\n`, `\r\n` and `\r`) and
the remaining characters. -/
def getLine : List Char → List Char × List Char
  | [] => ([], [])
  | c :: r =>
    if c = '\n' then ([], r)
    else if c = '\r' then
      match r with
      | [] => ([], [])
      | d :: r' => if d = '\n' then ([], r') else ([], d :: r')
    else
      let p := getLine r
      (c :: p.1, p.2)

/-! ### The line stream

`GBStream` models the `std::stringstream` + current-line-buffer pair used by
the parser: `cur` is the line most recently produced by `safeGetline`, `rest`
the unread characters, `eof` the stream's eofbit (set exactly when a
`safeGetline` call finds no characters left, in which case the line comes back
empty). -/

structure GBStream where
  cur : List Char
  rest : List Char
  eof : Bool
deriving DecidableEq

/-- `safeGetline` acting on the stream state. -/
def sgetline (st : GBStream) : GBStream :=
  match st.rest with
  | [] => { cur := [], rest := [], eof := true }
  | _ :: _ =>
    let p := getLine st.rest
    { cur := p.1, rest := p.2, eof := false }

/-- Measure of remaining input: every `sgetline` on a non-eof stream strictly
decreases it. -/
def meas (st : GBStream) : Nat :=
  st.rest.length + (if st.eof then 0 else 1)

/-- Stream well-formedness: the eofbit is only ever set together with an empty
line buffer and exhausted input. -/
def wfS (st : GBStream) : Prop :=
  st.eof = true → st.cur = [] ∧ st.rest = []

/-- Fuelled decomposition of raw text into its `safeGetline` lines. -/
def linesF : Nat → List Char → List (List Char)
  | 0, _ => []
  | _ + 1, [] => []
  | f + 1, s@(_ :: _) =>
    let p := getLine s
    p.1 :: linesF f p.2

/-- The `safeGetline` lines of a raw text. -/
def linesOf (s : List Char) : List (List Char) :=
  linesF (s.length + 1) s

/-- The lines a parser starting from stream state `st` can still observe:
the current line buffer (unless the stream is at eof) followed by the lines of
the unread input. -/
def slines (st : GBStream) : List (List Char) :=
  if st.eof then [] else st.cur :: linesOf st.rest

/-! ### Line classifiers (gbjson.cpp, "GenBank line processing") -/

/-- `isInteger`: non-empty and all digits. -/
def isInteger (n : List Char) : Bool :=
  !n.isEmpty && n.all (fun c => isdigitC c)

/-- `isLocus`: length at least 13, starts with `LOCUS`, column 12 not
whitespace. -/
def isLocus (line : List Char) : Bool :=
  decide (13 ≤ line.length) && decide (line.take 5 = ('L' :: 'O' :: 'C' :: 'U' :: 'S' :: []))
    && !isspaceC (line.getD 12 ' ')

/-- `isKeyword`: length at least 13, column 0 not whitespace and alphabetic. -/
def isKeyword (line : List Char) : Bool :=
  decide (13 ≤ line.length) && !isspaceC (line.getD 0 ' ') && isalphaC (line.getD 0 ' ')

/-- `isSubkeyword`: length at least 3, two leading spaces, column 2 not
whitespace. -/
def isSubkeyword (line : List Char) : Bool :=
  decide (3 ≤ line.length) && decide (line.take 2 = (' ' :: ' ' :: []))
    && !isspaceC (line.getD 2 ' ')

/-- `isSubsubkeyword`: length at least 4, three leading spaces, column 3 not
whitespace. -/
def isSubsubkeyword (line : List Char) : Bool :=
  decide (4 ≤ line.length) && decide (line.take 3 = (' ' :: ' ' :: ' ' :: []))
    && !isspaceC (line.getD 3 ' ')

/-- `isContinuation`: length at least 11 and the first 11 characters are
spaces. -/
def isContinuation (line : List Char) : Bool :=
  decide (11 ≤ line.length) && decide (line.take 11 = List.replicate 11 ' ')

/-- `isFeatureHeader`: starts with `FEATURES`. -/
def isFeatureHeader (line : List Char) : Bool :=
  decide (8 ≤ line.length)
    && decide (line.take 8 = ('F' :: 'E' :: 'A' :: 'T' :: 'U' :: 'R' :: 'E' :: 'S' :: []))

/-- `isFeature`: length at least 6, five leading spaces, column 5 not
whitespace. -/
def isFeature (line : List Char) : Bool :=
  decide (6 ≤ line.length) && decide (line.take 5 = List.replicate 5 ' ')
    && !isspaceC (line.getD 5 ' ')

/-- `isQualifier` (applied to a feature-line back field): first character is
`/`.  On an empty string, C++ `operator[]` at position 0 yields the null
character, so the comparison is false. -/
def isQualifier (back : List Char) : Bool :=
  back.head? = some '/'

/-- `isOrigin`: starts with `ORIGIN`. -/
def isOrigin (line : List Char) : Bool :=
  decide (6 ≤ line.length)
    && decide (line.take 6 = ('O' :: 'R' :: 'I' :: 'G' :: 'I' :: 'N' :: []))

/-- `isContig`: starts with `CONTIG`. -/
def isContig (line : List Char) : Bool :=
  decide (6 ≤ line.length)
    && decide (line.take 6 = ('C' :: 'O' :: 'N' :: 'T' :: 'I' :: 'G' :: []))

/-- `isSequence`: length at least 11, the 6-character field at indices 3..8,
left-trimmed, is a non-empty run of digits, column 9 is whitespace and column
10 is not. -/
def isSequence (line : List Char) : Bool :=
  if line.length < 11 then false
  else
    let n := stringTrimLeft ((line.drop 3).take 6)
    isInteger n && isspaceC (line.getD 9 ' ') && !isspaceC (line.getD 10 ' ')

/-- `isEnd`: starts with `//`. -/
def isEnd (line : List Char) : Bool :=
  decide (2 ≤ line.length) && decide (line.take 2 = ('/' :: '/' :: []))

/-- The function table `isItemLevel` indexed by keyword nesting level. -/
def isItemLevel (i : Nat) (line : List Char) : Bool :=
  match i with
  | 0 => isKeyword line
  | 1 => isSubkeyword line
  | 2 => isSubsubkeyword line
  | _ + 3 => false

/-! ### Failure modes of the embedded code

`substrOOB` models `std::string::substr` throwing `std::out_of_range`
(start position beyond the string size); `backOnEmpty` models the undefined
behaviour of `std::string::back()` on an empty string; `outOfFuel` is the
artefact of the fuelled embedding and is proved unreachable for the fuel
budget `gb2json` uses. -/

inductive GBFail where
  | outOfFuel
  | substrOOB
  | backOnEmpty
deriving DecidableEq

/-- `s.substr(pos, count)` for a count that reaches to the end of the string:
fails exactly when `pos` exceeds the size. -/
def substrFrom (s : List Char) (pos : Nat) : Except GBFail (List Char) :=
  if pos ≤ s.length then .ok (s.drop pos) else .error .substrOOB

/-- `s.substr(pos, cnt)`: fails exactly when `pos` exceeds the size; the count
is clamped to the remaining characters. -/
def substrCnt (s : List Char) (pos cnt : Nat) : Except GBFail (List Char) :=
  if pos ≤ s.length then .ok ((s.drop pos).take cnt) else .error .substrOOB

/-- `s.back()`: undefined (modelled as failure) on the empty string. -/
def backChar (s : List Char) : Except GBFail Char :=
  match s.getLast? with
  | some c => .ok c
  | none => .error .backOnEmpty

/-- `splitLine`: front = columns 0..9, back = columns 12.. (fails when the
line is shorter than 12 characters). -/
def splitLine (line : List Char) : Except GBFail (List Char × List Char) :=
  match substrFrom line 12 with
  | .error e => .error e
  | .ok back => .ok (line.take 10, back)

/-- `splitFeatureLine`: front = columns 0..20, back = columns 21.. (fails when
the line is shorter than 21 characters). -/
def splitFeatureLine (line : List Char) : Except GBFail (List Char × List Char) :=
  match substrFrom line 21 with
  | .error e => .error e
  | .ok back => .ok (line.take 21, back)

/-- `splitSequenceLine`: front = columns 0..9, back = columns 10.. with spaces
removed. -/
def splitSequenceLine (line : List Char) : Except GBFail (List Char × List Char) :=
  match substrFrom line 10 with
  | .error e => .error e
  | .ok back => .ok (line.take 10, removeSpaces back)

/-! ### The structural event stream

The rapidjson writer (on the parsing side) and reader (on the serializing
side) are abstracted by the sequence of structural events they carry:
array/object boundaries, keys, string values and nulls. -/

inductive JEvent where
  | sArr
  | eArr
  | sObj
  | eObj
  | keyE (s : List Char)
  | strE (s : List Char)
  | nullE
deriving DecidableEq

/-- Depth scan of an event sequence (arrays and objects combined), starting
from nesting depth `d`; `none` models popping an empty writer level stack. -/
def runD : List JEvent → Nat → Option Nat
  | [], d => some d
  | e :: t, d =>
    match e with
    | .sArr => runD t (d + 1)
    | .sObj => runD t (d + 1)
    | .eArr => match d with | 0 => none | d' + 1 => runD t d'
    | .eObj => match d with | 0 => none | d' + 1 => runD t d'
    | _ => runD t d

/-- Object-nesting scan: current object depth plus the maximum object depth
reached; `none` on underflow. -/
def objRun : List JEvent → Nat → Nat → Option (Nat × Nat)
  | [], d, m => some (d, m)
  | e :: t, d, m =>
    match e with
    | .sObj => objRun t (d + 1) (max m (d + 1))
    | .eObj => match d with | 0 => none | d' + 1 => objRun t d' m
    | _ => objRun t d m

/-- `rapidjson::Writer::IsComplete`: one root value was produced and the level
stack is balanced (a pop on an empty stack can never lead to completion). -/
def writerComplete (evts : List JEvent) : Bool :=
  decide (runD evts 0 = some 0) && !evts.isEmpty

/-! ### GenBank parsing (gbjson.cpp, "GenBank parsing" section)

Every recursive function takes fuel as its first argument and returns the
emitted events together with the stream state it leaves behind. -/

/-- `parseLocus`: the value is `line.substr(12, length - 12)`. -/
def parseLocus (st : GBStream) : Except GBFail (List JEvent × GBStream) :=
  match substrCnt st.cur 12 (st.cur.length - 12) with
  | .error e => .error e
  | .ok back =>
    .ok (.keyE ("LOCUS".data) :: .sArr :: .strE back :: .sArr :: .eArr :: .eArr :: [],
      sgetline st)

mutual

/-- The continuation-folding loop of `parseKeyword` (also reused verbatim by
the CONTIG branch of `parseSequence`): trailing whitespace per line is
trimmed, with a single space re-appended if the line had any, and lines are
newline-joined into the buffer. -/
def kwContLoop : Nat → GBStream → List Char → Except GBFail (List Char × GBStream)
  | 0, _, _ => .error .outOfFuel
  | fuel + 1, st, buffer =>
    if isContinuation st.cur then
      match splitLine st.cur with
      | .error e => .error e
      | .ok (_, back) =>
        match backChar back with
        | .error e => .error e
        | .ok c =>
          let back' := stringTrimRight back ++ (if isspaceC c then [' '] else [])
          kwContLoop fuel (sgetline st) (buffer ++ '\n' :: back')
    else .ok (buffer, st)

/-- `parseKeyword` at nesting `level` (0 keyword, 1 subkeyword,
2 subsubkeyword). -/
def parseKeyword : Nat → GBStream → Nat → Except GBFail (List JEvent × GBStream)
  | 0, _, _ => .error .outOfFuel
  | fuel + 1, st, level =>
    match splitLine st.cur with
    | .error e => .error e
    | .ok (front, back) =>
      match backChar back with
      | .error e => .error e
      | .ok c =>
        let buffer := stringTrimRight back ++ (if isspaceC c then [' '] else [])
        let front' := stringTrim front
        match kwContLoop fuel (sgetline st) buffer with
        | .error e => .error e
        | .ok (buffer', st2) =>
          match kwSubLoop fuel st2 level with
          | .error e => .error e
          | .ok (subEvts, st3) =>
            .ok (.keyE front' :: .sArr :: .strE buffer' :: .sArr
              :: subEvts ++ .eArr :: .eArr :: [], st3)

/-- The sub-item loop of `parseKeyword`: only entered while `level < 2`, each
sub-item is wrapped in an object. -/
def kwSubLoop : Nat → GBStream → Nat → Except GBFail (List JEvent × GBStream)
  | 0, _, _ => .error .outOfFuel
  | fuel + 1, st, level =>
    if level < 2 then
      if isItemLevel (level + 1) st.cur then
        match parseKeyword fuel st (level + 1) with
        | .error e => .error e
        | .ok (evts, st') =>
          match kwSubLoop fuel st' level with
          | .error e => .error e
          | .ok (evts2, st'') => .ok (.sObj :: evts ++ .eObj :: evts2, st'')
      else .ok ([], st)
    else .ok ([], st)

end

/-- Split of the folded qualifier text on the first `=` (gbjson.cpp lines
486–506).  No `=`, or a trailing `=`, gives a null value with key
`buffer.substr(1, buffer.length())`; otherwise the key is
`buffer.substr(1, pos - 1)` and the value `buffer.substr(pos + 1, length - pos)`.
For `pos = 0` the C++ `size_t` count `pos - 1` wraps around, taking the whole
remainder. -/
def qualifierSplit (buffer : List Char) : Except GBFail (List Char × Option (List Char)) :=
  match buffer.findIdx? (fun c => c = '=') with
  | none =>
    match substrCnt buffer 1 buffer.length with
    | .error e => .error e
    | .ok k => .ok (k, none)
  | some p =>
    if p = buffer.length - 1 then
      match substrCnt buffer 1 buffer.length with
      | .error e => .error e
      | .ok k => .ok (k, none)
    else
      match substrCnt buffer 1 (if p = 0 then buffer.length else p - 1) with
      | .error e => .error e
      | .ok k =>
        match substrCnt buffer (p + 1) (buffer.length - p) with
        | .error e => .error e
        | .ok v => .ok (k, some v)

/-- The continuation-folding loop of `parseQualifier`: note that (unlike the
keyword loop) the re-appended space for a line with trailing whitespace is
appended to the buffer before the trimmed back field. -/
def qualContLoop : Nat → GBStream → List Char → List Char → Except GBFail (List Char × GBStream)
  | 0, _, _, _ => .error .outOfFuel
  | fuel + 1, st, buffer, back =>
    if !isQualifier back && isContinuation st.cur then
      match backChar back with
      | .error e => .error e
      | .ok c =>
        let buffer' := buffer ++ (if isspaceC c then [' '] else []) ++ stringTrimRight back
        let st' := sgetline st
        if isContinuation st'.cur then
          match splitFeatureLine st'.cur with
          | .error e => .error e
          | .ok (_, back') => qualContLoop fuel st' buffer' back'
        else .ok (buffer', st')
    else .ok (buffer, st)

/-- `parseQualifier`: fold the qualifier's continuation lines, split the
buffer on the first `=`, and emit one qualifier object. -/
def parseQualifier : Nat → GBStream → Except GBFail (List JEvent × GBStream)
  | 0, _ => .error .outOfFuel
  | fuel + 1, st =>
    match splitFeatureLine st.cur with
    | .error e => .error e
    | .ok (_, back) =>
      match backChar back with
      | .error e => .error e
      | .ok c =>
        let buffer := stringTrimRight back ++ (if isspaceC c then [' '] else [])
        let st1 := sgetline st
        let step : Except GBFail (List Char × GBStream) :=
          if isContinuation st1.cur then
            match splitFeatureLine st1.cur with
            | .error e => .error e
            | .ok (_, back2) => qualContLoop fuel st1 buffer back2
          else .ok (buffer, st1)
        match step with
        | .error e => .error e
        | .ok (buffer', st2) =>
          match qualifierSplit buffer' with
          | .error e => .error e
          | .ok (k, v) =>
            .ok (.sObj :: .keyE k
              :: (match v with | none => JEvent.nullE | some s => .strE s)
              :: .eObj :: [], st2)

/-- The location-folding loop of `parseFeature`: folds continuation lines into
the location text, stopping at the first qualifier line; returns the folded
buffer and the back field current at exit. -/
def featLocLoop : Nat → GBStream → List Char → List Char →
    Except GBFail ((List Char × List Char) × GBStream)
  | 0, _, _, _ => .error .outOfFuel
  | fuel + 1, st, buffer, back =>
    if isContinuation st.cur then
      match splitFeatureLine st.cur with
      | .error e => .error e
      | .ok (_, back2) =>
        if isQualifier back2 then .ok ((buffer, back2), st)
        else
          match backChar back2 with
          | .error e => .error e
          | .ok c =>
            let back3 := stringTrimRight back2 ++ (if isspaceC c then [' '] else [])
            featLocLoop fuel (sgetline st) (buffer ++ back3) back3
    else .ok ((buffer, back), st)

/-- The qualifier loop of `parseFeature`. -/
def featQualLoop : Nat → GBStream → List Char → Except GBFail (List JEvent × GBStream)
  | 0, _, _ => .error .outOfFuel
  | fuel + 1, st, back =>
    if isQualifier back && isContinuation st.cur then
      match parseQualifier fuel st with
      | .error e => .error e
      | .ok (evts, st') =>
        if isContinuation st'.cur then
          match splitFeatureLine st'.cur with
          | .error e => .error e
          | .ok (_, back2) =>
            match featQualLoop fuel st' back2 with
            | .error e => .error e
            | .ok (evts2, st'') => .ok (evts ++ evts2, st'')
        else .ok (evts, st')
    else .ok ([], st)

/-- `parseFeature`: one feature object with its `Location` entry followed by
its qualifiers. -/
def parseFeature : Nat → GBStream → Except GBFail (List JEvent × GBStream)
  | 0, _ => .error .outOfFuel
  | fuel + 1, st =>
    match splitFeatureLine st.cur with
    | .error e => .error e
    | .ok (front, back) =>
      let buffer := stringTrimRight back
      let front' := stringTrim front
      match featLocLoop fuel (sgetline st) buffer back with
      | .error e => .error e
      | .ok ((buffer', back'), st2) =>
        match featQualLoop fuel st2 back' with
        | .error e => .error e
        | .ok (qevts, st3) =>
          .ok (.sObj :: .keyE front' :: .sArr :: .sObj :: .keyE ("Location".data)
            :: .strE buffer' :: .eObj :: qevts ++ .eArr :: .eObj :: [], st3)

/-- The feature loop of `parseFeatures`. -/
def featLoop : Nat → GBStream → Except GBFail (List JEvent × GBStream)
  | 0, _ => .error .outOfFuel
  | fuel + 1, st =>
    if isFeature st.cur then
      match parseFeature fuel st with
      | .error e => .error e
      | .ok (evts, st') =>
        match featLoop fuel st' with
        | .error e => .error e
        | .ok (evts2, st'') => .ok (evts ++ evts2, st'')
    else .ok ([], st)

/-- `parseFeatures`: the FEATURES key and the array of features. -/
def parseFeatures : Nat → GBStream → Except GBFail (List JEvent × GBStream)
  | 0, _ => .error .outOfFuel
  | fuel + 1, st =>
    match featLoop fuel (sgetline st) with
    | .error e => .error e
    | .ok (evts, st') =>
      .ok (.keyE ("FEATURES".data) :: .sArr :: evts ++ .eArr :: [], st')

/-- `parseOrigin`: trimmed text after column 6 (`substr(6, 79 - 6)`), null if
empty; consumes no line. -/
def parseOrigin (st : GBStream) : Except GBFail (List JEvent × GBStream) :=
  match substrCnt st.cur 6 73 with
  | .error e => .error e
  | .ok b =>
    let back := stringTrimRight b
    .ok (.keyE ("ORIGIN".data) :: .sArr
      :: (if back.isEmpty then JEvent.nullE else .strE back)
      :: .sArr :: .eArr :: .eArr :: [], st)

/-- The sequence-consuming loop of `parseSequence`. -/
def seqLoop : Nat → GBStream → List Char → Except GBFail (List Char × GBStream)
  | 0, _, _ => .error .outOfFuel
  | fuel + 1, st, buffer =>
    if isSequence st.cur then
      match splitSequenceLine st.cur with
      | .error e => .error e
      | .ok (_, back) => seqLoop fuel (sgetline st) (buffer ++ back)
    else .ok (buffer, st)

/-- `parseSequence`: reads the line after ORIGIN and emits either a CONTIG
item (folded like a keyword) or a SEQUENCE item (concatenated back fields),
or nothing. -/
def parseSequence : Nat → GBStream → Except GBFail (List JEvent × GBStream)
  | 0, _ => .error .outOfFuel
  | fuel + 1, st =>
    let st1 := sgetline st
    if isContig st1.cur then
      match splitLine st1.cur with
      | .error e => .error e
      | .ok (_, back) =>
        match backChar back with
        | .error e => .error e
        | .ok c =>
          let buffer := stringTrimRight back ++ (if isspaceC c then [' '] else [])
          match kwContLoop fuel (sgetline st1) buffer with
          | .error e => .error e
          | .ok (buffer', st2) =>
            .ok (.keyE ("CONTIG".data) :: .sArr
              :: (if buffer'.isEmpty then JEvent.nullE else .strE buffer')
              :: .sArr :: .eArr :: .eArr :: [], st2)
    else if isSequence st1.cur then
      match seqLoop fuel st1 [] with
      | .error e => .error e
      | .ok (buffer, st2) =>
        .ok (.keyE ("SEQUENCE".data) :: .sArr
          :: (if buffer.isEmpty then JEvent.nullE else .strE buffer)
          :: .sArr :: .eArr :: .eArr :: [], st2)
    else .ok ([], st1)

/-- `parseItem`: the classifier dispatch of the top-level loop. -/
def parseItem : Nat → GBStream → Except GBFail (List JEvent × GBStream)
  | 0, _ => .error .outOfFuel
  | fuel + 1, st =>
    if isLocus st.cur then
      match parseLocus st with
      | .error e => .error e
      | .ok (evts, st') => .ok (.sArr :: .sObj :: evts ++ .eObj :: [], st')
    else if isEnd st.cur then
      .ok (.eArr :: [], sgetline st)
    else if isOrigin st.cur then
      match parseOrigin st with
      | .error e => .error e
      | .ok (e1, st1) =>
        match parseSequence fuel st1 with
        | .error e => .error e
        | .ok (e2, st2) =>
          .ok (.sObj :: e1 ++ .eObj :: .sObj :: e2 ++ .eObj :: [], st2)
    else if isKeyword st.cur && !isFeatureHeader st.cur then
      match parseKeyword fuel st 0 with
      | .error e => .error e
      | .ok (evts, st') => .ok (.sObj :: evts ++ .eObj :: [], st')
    else if isFeatureHeader st.cur then
      match parseFeatures fuel st with
      | .error e => .error e
      | .ok (evts, st') => .ok (.sObj :: evts ++ .eObj :: [], st')
    else .ok ([], sgetline st)

/-- The `while (!gbstream.eof())` loop of `gb2json`. -/
def gbLoop : Nat → GBStream → Except GBFail (List JEvent × GBStream)
  | 0, _ => .error .outOfFuel
  | fuel + 1, st =>
    if st.eof then .ok ([], st)
    else
      match parseItem fuel st with
      | .error e => .error e
      | .ok (evts, st') =>
        match gbLoop fuel st' with
        | .error e => .error e
        | .ok (evts2, st'') => .ok (evts ++ evts2, st'')

/-- The gberror struct: error flag, message and raising function. -/
structure gberror where
  flag : Bool
  msg : List Char
  source : List Char
deriving DecidableEq

/-- The `gberror` constructor: flag cleared. -/
def gberrorInit : gberror := { flag := false, msg := [], source := [] }

/-- Outcome of `gb2json`: the JSON output parameter (`none` when it was never
assigned) and the error object. -/
structure GB2JOut where
  json : Option (List JEvent)
  err : gberror
deriving DecidableEq

/-- The event stream written by `gb2json`: one enclosing array around the
items emitted by the main loop. -/
def gb2jsonEvents (gb : List Char) : Except GBFail (List JEvent) :=
  let st0 := sgetline { cur := [], rest := gb, eof := false }
  match gbLoop (gb.length + 8) st0 with
  | .error e => .error e
  | .ok (evts, _) => .ok (.sArr :: evts ++ .eArr :: [])

/-- `gb2json`: on an incomplete writer the error flag is set and the output
parameter left unassigned, otherwise the JSON (here: its event stream) is
assigned. -/
def gb2json (gb : List Char) : Except GBFail GB2JOut :=
  match gb2jsonEvents gb with
  | .error e => .error e
  | .ok evts =>
    if writerComplete evts then
      .ok { json := some evts, err := gberrorInit }
    else
      .ok { json := none,
            err := { flag := true, msg := ("Incomplete GenBank".data),
                     source := ("gb2json".data) } }

/-! ### The text wrapper `blockPad` (gbjson.cpp lines 186–237)

Integer arithmetic is over `Int` (C++ `int`); `std::ceil` of an exact double
quotient is integer ceiling division, and all substring start positions in
`blockPad` are provably within bounds, so clamped `drop`/`take` render
`substr` faithfully here. -/

/-- Ceiling division on `Int`, exact for a positive divisor (the only case the
embedded code exercises). -/
def ceilDivI (a b : Int) : Int := (a + b - 1).fdiv b

/-- The first-line fragment loop of `blockPad`:
`makeSpaces(leader) + line.substr(writeLen - offset + i*writeLen, writeLen) + newline`
for `i = 0 .. cnt-1`. -/
def fragLoop1 (line : List Char) (leader writeLen offset : Int) : Nat → Nat → List Char
  | _, 0 => []
  | i, c + 1 =>
    makeSpaces leader ++ (line.drop (writeLen - offset + i * writeLen).toNat).take writeLen.toNat
      ++ '\n' :: fragLoop1 line leader writeLen offset (i + 1) c

/-- The fragment loop for the remaining input lines of `blockPad`:
`makeSpaces(leader) + line.substr(i*writeLen, writeLen) + newline`. -/
def fragLoop2 (line : List Char) (leader writeLen : Int) : Nat → Nat → List Char
  | _, 0 => []
  | i, c + 1 =>
    makeSpaces leader ++ (line.drop ((i : Int) * writeLen).toNat).take writeLen.toNat
      ++ '\n' :: fragLoop2 line leader writeLen (i + 1) c

/-- The `while (!in.eof())` loop of `blockPad` over the remaining input lines
(the fuel, instantiated with the input length plus one, always suffices since
`getLine` consumes at least one character of a non-empty rest). -/
def blockRestF : Nat → List Char → Int → Int → List Char
  | 0, _, _, _ => []
  | fuel + 1, rest, leader, writeLen =>
    match rest with
    | [] => []
    | _ :: _ =>
      let p := getLine rest
      let nfrag := ceilDivI (p.1.length : Int) writeLen
      fragLoop2 p.1 leader writeLen 0 nfrag.toNat ++ blockRestF fuel p.2 leader writeLen

/-- `blockPad`: split a string into lines and left-pad with whitespace; the
first line is emitted without leading whitespace and shortened by `offset`
characters already on the output line. -/
def blockPad (input : List Char) (leader len offset : Int) : List Char :=
  if len < leader ∨ len ≤ 0 ∨ offset ≥ len - leader then []
  else
    let p := getLine input
    let line := p.1
    let writeLen := len - leader
    let nfrag := ceilDivI ((line.length : Int) + offset) writeLen
    (line.take (writeLen - offset).toNat) ++ '\n'
      :: (fragLoop1 line leader writeLen offset 0 (nfrag - 1).toNat
        ++ blockRestF (input.length + 1) p.2 leader writeLen)

/-! ### The JSON-to-GenBank state machine (gbjson.cpp, `JSONHandler`) -/

inductive HState where
  | START | LOCUS | LOCUSSUB
  | KEYWORD | SUBKEYWORD | SUBSUBKEYWORD
  | FEATURE_HEADER | FEATURE | QUALIFIER_LOCATION | QUALIFIER
  | ORIGIN | ORIGINSUB | SEQUENCE | SEQUENCESUB | CONTIG | CONTIGSUB
  | END
deriving DecidableEq

/-- The handler state: mode, the one-shot skip flag, accumulated GenBank
output, and the column counter. -/
structure JSONHandler where
  state : HState
  skipStateUpdate : Bool
  gb : List Char
  nwritten : Int
deriving DecidableEq

/-- The handler constructor: `state(START), nwritten(0), skipStateUpdate(false)`. -/
def handlerInit : JSONHandler :=
  { state := .START, skipStateUpdate := false, gb := [], nwritten := 0 }

/-- `JSONHandler::updateState`. -/
def updateState (h : JSONHandler) (key : List Char) : JSONHandler :=
  if h.state = .QUALIFIER ∧ key = ("Location".data) then { h with state := .QUALIFIER_LOCATION }
  else if h.state = .QUALIFIER_LOCATION then { h with state := .QUALIFIER }
  else if key = ("LOCUS".data) then { h with state := .LOCUS, skipStateUpdate := true }
  else if key = ("ORIGIN".data) then { h with state := .ORIGIN, skipStateUpdate := true }
  else if key = ("SEQUENCE".data) then { h with state := .SEQUENCE, skipStateUpdate := true }
  else if key = ("CONTIG".data) then { h with state := .CONTIG, skipStateUpdate := true }
  else if key = ("FEATURES".data) then { h with state := .FEATURE_HEADER }
  else if h.skipStateUpdate = false ∧
      (h.state = .KEYWORD ∨ h.state = .SUBKEYWORD ∨ h.state = .SUBSUBKEYWORD) then
    { h with skipStateUpdate := true }
  else h

/-- `JSONHandler::StartArray`. -/
def startArrayEv (h : JSONHandler) : JSONHandler :=
  match h.state with
  | .KEYWORD =>
    if h.skipStateUpdate then { h with skipStateUpdate := false }
    else { h with state := .SUBKEYWORD }
  | .SUBKEYWORD =>
    if h.skipStateUpdate then { h with skipStateUpdate := false }
    else { h with state := .SUBSUBKEYWORD }
  | .LOCUS =>
    if h.skipStateUpdate then { h with skipStateUpdate := false }
    else { h with state := .LOCUSSUB }
  | .ORIGIN =>
    if h.skipStateUpdate then { h with skipStateUpdate := false }
    else { h with state := .ORIGINSUB }
  | .SEQUENCE =>
    if h.skipStateUpdate then { h with skipStateUpdate := false }
    else { h with state := .SEQUENCESUB }
  | .CONTIG =>
    if h.skipStateUpdate then { h with skipStateUpdate := false }
    else { h with state := .CONTIGSUB }
  | .END => { h with state := .START }
  | _ => h

/-- `JSONHandler::EndArray`. -/
def endArrayEv (h : JSONHandler) : JSONHandler :=
  if h.state = .QUALIFIER ∨ h.state = .QUALIFIER_LOCATION then { h with state := .FEATURE }
  else if h.state = .FEATURE then { h with state := .FEATURE_HEADER }
  else if h.state = .FEATURE_HEADER then { h with state := .KEYWORD }
  else if h.state = .SUBSUBKEYWORD then { h with state := .SUBKEYWORD }
  else if h.state = .SUBKEYWORD then { h with state := .KEYWORD }
  else if h.state = .LOCUSSUB then { h with state := .LOCUS }
  else if h.state = .LOCUS then { h with state := .KEYWORD }
  else if h.state = .ORIGINSUB then { h with state := .ORIGIN }
  else if h.state = .ORIGIN then { h with state := .KEYWORD }
  else if h.state = .SEQUENCESUB then { h with state := .SEQUENCE }
  else if h.state = .CONTIGSUB then { h with state := .CONTIG }
  else if h.state = .SEQUENCE ∨ h.state = .CONTIG then
    { h with gb := h.gb ++ ('/' :: '/' :: '\n' :: []), nwritten := 0, state := .END }
  else h

/-- `JSONHandler::StartObject`. -/
def startObjectEv (h : JSONHandler) : JSONHandler :=
  match h.state with
  | .FEATURE_HEADER => { h with state := .FEATURE }
  | .FEATURE => { h with state := .QUALIFIER }
  | _ => h

/-- `JSONHandler::EndObject`. -/
def endObjectEv (h : JSONHandler) : JSONHandler :=
  if h.state = .QUALIFIER ∨ h.state = .QUALIFIER_LOCATION then { h with state := .FEATURE }
  else h

/-- `JSONHandler::handleStringValue`: write the value through `blockPad` at
the state's value column, prefixing `=` in QUALIFIER state; resets the column
counter. -/
def handleStringValue (h : JSONHandler) (value : List Char) : JSONHandler :=
  let valueIndentation : Int :=
    match h.state with
    | .QUALIFIER => 21
    | .QUALIFIER_LOCATION => 21
    | .FEATURE => 21
    | .KEYWORD => 12
    | .SUBKEYWORD => 12
    | .SUBSUBKEYWORD => 12
    | _ => 12
  let gb1 := if h.state = .QUALIFIER then h.gb ++ ('=' :: []) else h.gb
  let nw1 := if h.state = .QUALIFIER then h.nwritten + 1 else h.nwritten
  let block := blockPad value valueIndentation 79 (nw1 - valueIndentation)
  { h with gb := gb1 ++ block, nwritten := 0 }

/-- The 10-base section loop of `handleSequence` (a single space between
sections, none after the last). -/
def seqSections (line : List Char) : Nat → Nat → List Char
  | _, 0 => []
  | j, c + 1 =>
    (line.drop (j * 10)).take 10 ++ (if c = 0 then [] else [' '])
      ++ seqSections line (j + 1) c

/-- The line loop of `handleSequence`: right-justified 1-based coordinate in a
9-character field, one space, then the 10-base sections. -/
def seqLines (value : List Char) : Nat → Nat → List Char
  | _, 0 => []
  | i, c + 1 =>
    let pos := (Nat.repr (i * 60 + 1)).data
    let line := (value.drop (i * 60)).take 60
    let nsections := (line.length + 9) / 10
    makeSpaces (9 - (pos.length : Int)) ++ pos ++ ' '
      :: (seqSections line 0 nsections ++ '\n' :: seqLines value (i + 1) c)

/-- `JSONHandler::handleSequence`: re-chunk the sequence into 60-base lines;
resets the column counter. -/
def handleSequence (h : JSONHandler) (value : List Char) : JSONHandler :=
  let nlines := (value.length + 59) / 60
  { h with gb := h.gb ++ seqLines value 0 nlines, nwritten := 0 }

/-- `JSONHandler::String`: verbatim plus newline in LOCUS and ORIGIN states
(the column counter is left untouched there), `handleSequence` in SEQUENCE
state, `handleStringValue` otherwise. -/
def stringEv (h : JSONHandler) (s : List Char) : JSONHandler :=
  match h.state with
  | .LOCUS => { h with gb := h.gb ++ s ++ '\n' :: [] }
  | .ORIGIN => { h with gb := h.gb ++ s ++ '\n' :: [] }
  | .SEQUENCE => handleSequence h s
  | _ => handleStringValue h s

/-- `JSONHandler::Key`. -/
def keyEv (h0 : JSONHandler) (key : List Char) : JSONHandler :=
  let h := updateState h0 key
  if h.state = .SEQUENCE then h
  else if h.state = .FEATURE_HEADER then
    { h with
      gb := h.gb ++ ("FEATURES".data) ++ makeSpaces (21 - 8)
        ++ ("Location/Qualifiers".data) ++ '\n' :: [],
      nwritten := 0 }
  else if h.state = .QUALIFIER then
    { h with gb := h.gb ++ makeSpaces 21 ++ '/' :: key, nwritten := 22 + key.length }
  else if h.state = .QUALIFIER_LOCATION then h
  else
    let p : Int × Int :=
      match h.state with
      | .KEYWORD => (0, 12)
      | .SUBKEYWORD => (2, 12)
      | .SUBSUBKEYWORD => (3, 12)
      | .FEATURE => (5, 21)
      | _ => (0, 12)
    { h with
      gb := h.gb ++ makeSpaces p.1 ++ key ++ makeSpaces (p.2 - p.1 - key.length),
      nwritten := p.2 }

/-- `JSONHandler::Null`: a bare newline (the column counter is left
untouched). -/
def nullEv (h : JSONHandler) : JSONHandler :=
  { h with gb := h.gb ++ '\n' :: [] }

/-- Dispatch of one structural event to the handler. -/
def handlerStep (h : JSONHandler) (e : JEvent) : JSONHandler :=
  match e with
  | .sArr => startArrayEv h
  | .eArr => endArrayEv h
  | .sObj => startObjectEv h
  | .eObj => endObjectEv h
  | .keyE k => keyEv h k
  | .strE s => stringEv h s
  | .nullE => nullEv h

/-- Feed a whole event stream to the handler. -/
def runHandler (h : JSONHandler) (evts : List JEvent) : JSONHandler :=
  evts.foldl handlerStep h

/-- Result of the upstream JSON reader driving the handler: the structural
events it delivered before finishing or failing, and whether it reported a
parse error. -/
structure ReaderOut where
  events : List JEvent
  hasError : Bool
deriving DecidableEq

/-- `json2gb` (gbjson.cpp lines 1273–1291): on a reader parse error the error
flag, message and source are set and the output parameter (`none`) is left
unassigned; otherwise the handler's accumulated GenBank text is assigned. -/
def json2gb (r : ReaderOut) : Option (List Char) × gberror :=
  let handler := runHandler handlerInit r.events
  if r.hasError then
    (none, { flag := true, msg := ("Unable to parse JSON".data), source := ("json2gb".data) })
  else (some handler.gb, gberrorInit)

/-! ### The older handler bundled in json2gb.cpp

`src/json2gb.cpp` carries its own, older copy of the library.  Its handler
(json2gb.cpp lines 806–1137) has no skip flag and no CONTIG support; its
`json2gb` (lines 1146–1154) never consults the reader's error state and
assigns the handler output unconditionally.  The state type is reused (the
legacy code only inhabits a subset of the states). -/

/-- The legacy handler state (json2gb.cpp): no skip flag. -/
structure LegacyHandler where
  state : HState
  gb : List Char
  nwritten : Int
deriving DecidableEq

/-- The legacy handler constructor: `state(START), nwritten(0)`. -/
def legacyInit : LegacyHandler := { state := .START, gb := [], nwritten := 0 }

/-- Legacy `JSONHandler::updateState` (no skip flag, no CONTIG). -/
def legacyUpdateState (h : LegacyHandler) (key : List Char) : LegacyHandler :=
  if h.state = .QUALIFIER ∧ key = ("Location".data) then { h with state := .QUALIFIER_LOCATION }
  else if h.state = .QUALIFIER_LOCATION then { h with state := .QUALIFIER }
  else if key = ("LOCUS".data) then { h with state := .LOCUS }
  else if key = ("ORIGIN".data) then { h with state := .ORIGIN }
  else if key = ("SEQUENCE".data) then { h with state := .SEQUENCE }
  else if key = ("FEATURES".data) then { h with state := .FEATURE_HEADER }
  else h

/-- Legacy `JSONHandler::StartObject`. -/
def legacyStartObject (h : LegacyHandler) : LegacyHandler :=
  match h.state with
  | .KEYWORD => { h with state := .SUBKEYWORD }
  | .SUBKEYWORD => { h with state := .SUBSUBKEYWORD }
  | .FEATURE_HEADER => { h with state := .FEATURE }
  | .FEATURE => { h with state := .QUALIFIER }
  | .END => { h with state := .START }
  | _ => h

/-- Legacy `JSONHandler::EndObject` (the record terminator is written when an
object closes in SEQUENCE or ORIGIN state). -/
def legacyEndObject (h : LegacyHandler) : LegacyHandler :=
  if h.state = .QUALIFIER then { h with state := .FEATURE }
  else if h.state = .FEATURE then { h with state := .KEYWORD }
  else if h.state = .SUBSUBKEYWORD then { h with state := .SUBKEYWORD }
  else if h.state = .SUBKEYWORD then { h with state := .KEYWORD }
  else if h.state = .SEQUENCE ∨ h.state = .ORIGIN then
    { h with state := .END, gb := h.gb ++ ('/' :: '/' :: '\n' :: []), nwritten := 0 }
  else h

/-- Legacy `JSONHandler::handleStringValue`: a hand-rolled wrap (the newer
library replaced it by `blockPad`).  The C++ mixes `int` and `size_t`: for a
negative `79 - nwritten` the first `substr` count wraps (taking everything)
and the size comparison guarding the continuation block is false. -/
def legacyHandleStringValue (h : LegacyHandler) (value : List Char) : LegacyHandler :=
  let valueIndentation : Int :=
    match h.state with
    | .QUALIFIER => 21
    | .QUALIFIER_LOCATION => 21
    | .FEATURE => 21
    | .KEYWORD => 12
    | .SUBKEYWORD => 12
    | .SUBSUBKEYWORD => 12
    | _ => 12
  let gb1 := if h.state = .QUALIFIER then h.gb ++ ('=' :: []) else h.gb
  let nw1 := if h.state = .QUALIFIER then h.nwritten + 1 else h.nwritten
  let rem := 79 - nw1
  let first := if rem < 0 then value else value.take rem.toNat
  let gb2 := gb1 ++ first ++ '\n' :: []
  if rem < 0 then { h with gb := gb2, nwritten := nw1 }
  else if (value.length : Int) > rem then
    let contLines := ceilDivI ((value.length : Int) - rem) (79 - valueIndentation)
    let rec contLoop (i cnt : Nat) : List Char :=
      match cnt with
      | 0 => []
      | c + 1 =>
        makeSpaces valueIndentation
          ++ (value.drop (rem + (i : Int) * (79 - valueIndentation)).toNat).take
            (79 - valueIndentation).toNat
          ++ '\n' :: contLoop (i + 1) c
    { h with gb := gb2 ++ contLoop 0 contLines.toNat, nwritten := 0 }
  else { h with gb := gb2, nwritten := nw1 }

/-- Legacy `JSONHandler::String`: in LOCUS state it additionally advances to
KEYWORD; legacy `handleSequence` is textually identical to the newer one. -/
def legacyString (h : LegacyHandler) (s : List Char) : LegacyHandler :=
  match h.state with
  | .LOCUS => { h with gb := h.gb ++ s ++ '\n' :: [], state := .KEYWORD }
  | .ORIGIN => { h with gb := h.gb ++ s ++ '\n' :: [] }
  | .SEQUENCE =>
    let nlines := (s.length + 59) / 60
    { h with gb := h.gb ++ seqLines s 0 nlines, nwritten := 0 }
  | _ => legacyHandleStringValue h s

/-- Legacy `JSONHandler::Key` (same shape as the newer one, without the skip
flag in `updateState`). -/
def legacyKey (h0 : LegacyHandler) (key : List Char) : LegacyHandler :=
  let h := legacyUpdateState h0 key
  if h.state = .SEQUENCE then h
  else if h.state = .FEATURE_HEADER then
    { h with
      gb := h.gb ++ ("FEATURES".data) ++ makeSpaces (21 - 8)
        ++ ("Location/Qualifiers".data) ++ '\n' :: [],
      nwritten := 0 }
  else if h.state = .QUALIFIER then
    { h with gb := h.gb ++ makeSpaces 21 ++ '/' :: key, nwritten := 22 + key.length }
  else if h.state = .QUALIFIER_LOCATION then h
  else
    let p : Int × Int :=
      match h.state with
      | .KEYWORD => (0, 12)
      | .SUBKEYWORD => (2, 12)
      | .SUBSUBKEYWORD => (3, 12)
      | .FEATURE => (5, 21)
      | _ => (0, 12)
    { h with
      gb := h.gb ++ makeSpaces p.1 ++ key ++ makeSpaces (p.2 - p.1 - key.length),
      nwritten := p.2 }

/-- Dispatch of one structural event to the legacy handler (its StartArray and
EndArray are no-ops; Null writes a bare newline). -/
def legacyStep (h : LegacyHandler) (e : JEvent) : LegacyHandler :=
  match e with
  | .sArr => h
  | .eArr => h
  | .sObj => legacyStartObject h
  | .eObj => legacyEndObject h
  | .keyE k => legacyKey h k
  | .strE s => legacyString h s
  | .nullE => { h with gb := h.gb ++ '\n' :: [] }

/-- Feed a whole event stream to the legacy handler. -/
def runLegacy (h : LegacyHandler) (evts : List JEvent) : LegacyHandler :=
  evts.foldl legacyStep h

/-- The legacy `json2gb` (json2gb.cpp lines 1146–1154): the reader's parse
error state is never consulted; the handler output is assigned to the output
parameter unconditionally and the error object is returned untouched. -/
def json2gbLegacy (r : ReaderOut) : Option (List Char) × gberror :=
  let handler := runLegacy legacyInit r.events
  (some handler.gb, gberrorInit)

instance {α β : Type} [DecidableEq α] [DecidableEq β] : DecidableEq (Except α β) := fun a b =>
  match a, b with
  | .ok x, .ok y => decidable_of_iff (x = y) (by simp)
  | .error x, .error y => decidable_of_iff (x = y) (by simp)
  | .ok _, .error _ => isFalse (by simp)
  | .error _, .ok _ => isFalse (by simp)

/-! ### Compositions and spec-side comparison definitions -/

/-- The conversion pipeline GenBank → events → GenBank, with the external
JSON serialize/parse pair abstracted as the identity on well-formed event
streams (spec sections 1 and 6 treat the generic JSON layer as an external
collaborator speaking exactly this protocol).  `none` when `gb2json` fails or
does not assign its output. -/
def gbRoundTrip (gb : List Char) : Option (Option (List Char) × gberror × gberror) :=
  match gb2json gb with
  | .error _ => none
  | .ok out =>
    match out.json with
    | none => none
    | some evts =>
      let r := json2gb { events := evts, hasError := false }
      some (r.1, out.err, r.2)

/-- The `isSequence` rule as the specification words it: length at least 11;
the 6-character substring at indices 3..8, after left-trimming, non-empty and
all digits; the character at index 9 whitespace; the character at index 10 not
whitespace. -/
def isSequenceSpec (line : List Char) : Bool :=
  decide (11 ≤ line.length)
    && (let n := stringTrimLeft ((line.drop 3).take 6)
        !n.isEmpty && n.all (fun c => isdigitC c))
    && isspaceC (line.getD 9 ' ')
    && !isspaceC (line.getD 10 ' ')

/-- The qualifier split as the specification words it: split on the first
`=`; if absent or final, the key is the text after the leading `/` and the
value is null; otherwise the key is the text strictly between the leading `/`
and the first `=` and the value is the text after the first `=`. -/
def qualifierSplitSpec (b : List Char) : List Char × Option (List Char) :=
  match b.findIdx? (fun c => c = '=') with
  | none => (b.drop 1, none)
  | some p =>
    if p = b.length - 1 then (b.drop 1, none)
    else ((b.take p).drop 1, some (b.drop (p + 1)))

/-- C1's round-trip input: `LOCUS` + three spaces + `test` + two trailing
spaces, newline, `//`, newline. -/
def c1input : List Char := ("LOCUS   test  \n//\n".data)

/-- A minimal record that does round-trip byte-identically: the LOCUS name
starts at column 12, the ORIGIN line is padded to the value column, and one
sequence line carries the bases. -/
def c1inputAmended : List Char :=
  ("LOCUS       test  \nORIGIN      \n        1 acgt\n//\n".data)

/-- A keyword line followed by a continuation line of exactly 11 spaces (the
back field of the continuation line is absent). -/
def c10input1 : List Char :=
  ("SOURCE      abc\n".data) ++ List.replicate 11 ' ' ++ '\n' :: []

/-- A keyword line followed by a continuation line of exactly 12 characters
(the back field of the continuation line is empty). -/
def c10input2 : List Char :=
  ("SOURCE      abc\n".data) ++ List.replicate 12 ' ' ++ '\n' :: []

/-! ### Invariant vocabulary for the parser

These predicates package the conclusions of the per-function invariant lemmas:
balanced events, bounded object nesting, stream sanity, and preservation of a
pending LOCUS line. -/

/-- The event segment is balanced: scanned from any depth, it neither
underflows nor changes the depth. -/
def evOK (evts : List JEvent) : Prop :=
  ∀ d, runD evts d = some d

/-- The event segment's object nesting returns to its starting depth and
exceeds it by at most `cap`. -/
def objOK (evts : List JEvent) (cap : Nat) : Prop :=
  ∀ d m, ∃ m2, objRun evts d m = some (d, m2) ∧ m2 ≤ max m (d + cap)

/-- The lines a parser can still observe from `st'` are a suffix of those of
`st`, and the stream stays well-formed without growing. -/
def streamOK (st st' : GBStream) : Prop :=
  wfS st' ∧ meas st' ≤ meas st ∧ slines st' <:+ slines st

/-- Any pending LOCUS line visible from `st` is still visible from `st'`. -/
def keepLocus (st st' : GBStream) : Prop :=
  ∀ l, isLocus l = true → l ∈ slines st → l ∈ slines st'

def c2input : List Char := ("LOCUS       test  \n").data

def c2out : GB2JOut :=
  { json := none,
    err := gberror.mk true ("Incomplete GenBank".data) ("gb2json".data) }

def c7input : List Char := ("LOCUS       test  \n//\n").data

def c7evts : List JEvent :=
  [.sArr, .sArr, .sObj, .keyE ("LOCUS".data), .sArr, .strE ("test  ".data),
   .sArr, .eArr, .eArr, .eObj, .eArr, .eArr]

def c7out : GB2JOut := { json := some c7evts, err := gberrorInit }

def c7kwStream : GBStream := { cur := ("TEST        val").data, rest := [], eof := false }

def c7kwEvts : List JEvent :=
  [.keyE ("TEST".data), .sArr, .strE ("val".data), .sArr, .eArr, .eArr]

/-! ## Theorems -/

/-- C1 (counterexample): on the exact claimed input `LOCUS` + three spaces +
`test` + two spaces + newline + `//` + newline, `gb2json` reports the
incomplete-document error and leaves its output parameter unassigned (the
line fails `isLocus` because column 12 is a space, so no record array is ever
opened while the `//` line closes one and the writer's level stack
underflows), so the round trip does not even start — contradicting the
claimed error-free byte-identical round trip. -/
theorem c1_minimal_roundtrip_fails :
    gb2json c1input =
      Except.ok ⟨none, true, ("Incomplete GenBank".data), ("gb2json".data)⟩ ∧
    gbRoundTrip c1input = none := by
  constructor <;> decide

/-- C1 (amended): the round-trip identity does hold for the nearby minimal
record whose LOCUS name starts at column 12 and which carries an ORIGIN line
padded to the value column plus one sequence line: `gb2json` then `json2gb`
reproduces the original bytes exactly and neither conversion reports an
error. -/
theorem c1_roundtrip_amended :
    gbRoundTrip c1inputAmended = some (some c1inputAmended, gberrorInit, gberrorInit) ∧
    gberrorInit.flag = false := by
  constructor <;> decide

/-- C10: `gb2json` is not total on reachable input: a keyword line followed by
a continuation line of exactly 11 spaces makes `parseKeyword`'s continuation
handling call `substr(12)` with a start position past the end of the line
(modelled `GBFail.substrOOB`), and a continuation line of exactly 12
characters makes it call `back()` on an empty string (modelled
`GBFail.backOnEmpty`). -/
theorem c10_unguarded_continuation_access :
    gb2json c10input1 = Except.error GBFail.substrOOB ∧
    gb2json c10input2 = Except.error GBFail.backOnEmpty := by
  constructor <;> decide

/-- C3 (amended, library side): the conversion functions of the current
library (gbjson.cpp) are atomic on error — `json2gb` on a reader parse error
sets the error flag, message and source and leaves the GenBank output
parameter unassigned, and `gb2json` never assigns its JSON output parameter
when its error flag is raised. -/
theorem c3_library_error_atomicity :
    (∀ r : ReaderOut, r.hasError = true →
      json2gb r = (none, ⟨true, ("Unable to parse JSON".data), ("json2gb".data)⟩)) ∧
    (∀ (gb : List Char) (out : GB2JOut), gb2json gb = Except.ok out →
      out.err.flag = true → out.json = none) := by
  constructor
  · intro r h
    simp [json2gb, h]
  · intro gb out h hf
    unfold gb2json at h
    cases hev : gb2jsonEvents gb with
    | error e => rw [hev] at h; exact absurd h (by simp)
    | ok evts =>
      rw [hev] at h
      by_cases hc : writerComplete evts = true
      · simp only [hc, if_true] at h
        cases h
        exact absurd hf (by simp [gberrorInit])
      · simp only [Bool.not_eq_true] at hc
        simp only [hc, Bool.false_eq_true, if_false] at h
        cases h
        rfl

/-- C3 (witness): the library atomicity applied to a concrete failing reader
and to a concrete erroring `gb2json` run. -/
theorem c3_library_error_atomicity_witness :
    (({ events := [], hasError := true } : ReaderOut).hasError = true ∧
      json2gb { events := [], hasError := true } =
        (none, ⟨true, ("Unable to parse JSON".data), ("json2gb".data)⟩)) ∧
    (∀ out : GB2JOut, gb2json c1input = Except.ok out → out.err.flag = true → out.json = none) :=
  ⟨⟨rfl, c3_library_error_atomicity.1 { events := [], hasError := true } rfl⟩,
    fun out h hf => c3_library_error_atomicity.2 c1input out h hf⟩

/-- C3 (counterexample): the older copy of `json2gb` bundled in json2gb.cpp
violates the claim — on a reader that fails to parse (here: failing before
delivering any event), it assigns the partially built handler output to the
GenBank output parameter and reports no error. -/
theorem c3_legacy_assigns_on_error :
    json2gbLegacy { events := [], hasError := true } = (some [], gberrorInit) ∧
    gberrorInit.flag = false := by
  constructor <;> decide

/-- C9 (counterexample): after the String value write of a LOCUS item (which
ends with a newline), the column counter still holds the value-column 12 set
by the preceding Key event — it is not reset to 0 as claimed. -/
theorem c9_locus_value_write_keeps_column :
    (runHandler handlerInit
      (JEvent.keyE ("LOCUS".data) :: JEvent.sArr :: JEvent.strE ("test".data) :: [])).nwritten
        = 12 ∧
    (runHandler handlerInit
      (JEvent.keyE ("LOCUS".data) :: JEvent.sArr :: JEvent.strE ("test".data) :: [])).nwritten
        ≠ 0 := by
  constructor <;> decide

/-- C9 (amended): the wrapped value writes (`handleStringValue`, hence String
events in the Keyword/Feature/Qualifier family of states) and the sequence
writes (`handleSequence`, String events in SEQUENCE state) reset the column
counter to 0, but the verbatim String writes of the LOCUS and ORIGIN states
and the bare-newline Null write leave `nwritten` untouched. -/
theorem c9_column_counter_amended :
    ∀ (h : JSONHandler) (s : List Char),
      (handleStringValue h s).nwritten = 0 ∧
      (handleSequence h s).nwritten = 0 ∧
      ((h.state = HState.LOCUS ∨ h.state = HState.ORIGIN) →
        (stringEv h s).nwritten = h.nwritten) ∧
      (h.state = HState.SEQUENCE → (stringEv h s).nwritten = 0) ∧
      (h.state ≠ HState.LOCUS → h.state ≠ HState.ORIGIN → h.state ≠ HState.SEQUENCE →
        (stringEv h s).nwritten = 0) ∧
      (nullEv h).nwritten = h.nwritten := by
  intro h s
  obtain ⟨st, sk, gb, nw⟩ := h
  refine ⟨by simp [handleStringValue], by simp [handleSequence], ?_, ?_, ?_,
    by simp [nullEv]⟩ <;>
    cases st <;> simp [stringEv, handleStringValue, handleSequence]

/-- C9 (witness): the amended statement applied at a concrete handler state in
LOCUS mode with a non-zero column counter, and at a concrete wrapped write. -/
theorem c9_column_counter_amended_witness :
    (stringEv { state := HState.LOCUS, skipStateUpdate := false, gb := [], nwritten := 12 }
      ("x".data)).nwritten = 12 ∧
    (handleStringValue handlerInit ("x".data)).nwritten = 0 :=
  ⟨(c9_column_counter_amended
      { state := HState.LOCUS, skipStateUpdate := false, gb := [], nwritten := 12 }
      ("x".data)).2.2.1 (Or.inl rfl),
    (c9_column_counter_amended handlerInit ("x".data)).1⟩

/-- Helper: an index found by `List.findIdx?` is at least the accumulator and
within the list. -/
theorem findIdxGeAcc (p : Char → Bool) :
    ∀ (l : List Char) (i j : Nat), l.findIdx? p i = some j → i ≤ j ∧ j - i < l.length := by
  intro l
  induction l with
  | nil => intro i j h; exact absurd h (by simp [List.findIdx?])
  | cons a t ih =>
    intro i j h
    rw [List.findIdx?_cons] at h
    by_cases hp : p a = true
    · rw [if_pos hp] at h
      cases h
      exact ⟨Nat.le_refl _, by simp⟩
    · rw [if_neg hp] at h
      obtain ⟨h1, h2⟩ := ih (i + 1) j h
      exact ⟨by omega, by simp only [List.length_cons]; omega⟩

/-- C4: the `isSequence` classifier returns true exactly under the claimed
characterization (length at least 11; the 6-character substring at indices
3..8, left-trimmed, non-empty and all digits; index 9 whitespace; index 10 not
whitespace); in particular it returns false for a non-numeric digit field,
for a whitespace column 10, and for an empty trailing line. -/
theorem c4_isSequence_characterization :
    (∀ line : List Char, isSequence line = isSequenceSpec line) ∧
    isSequence ("        a acgt".data) = false ∧
    isSequence ("        1  acgt".data) = false ∧
    isSequence [] = false := by
  refine ⟨?_, by decide, by decide, by decide⟩
  intro line
  by_cases h : line.length < 11
  · have h2 : ¬ (11 ≤ line.length) := by omega
    simp only [isSequence, if_pos h, isSequenceSpec, decide_eq_false h2]
    rw [Bool.false_and, Bool.false_and, Bool.false_and]
  · have h2 : (11 ≤ line.length) := by omega
    simp only [isSequence, if_neg h, isSequenceSpec, decide_eq_true h2, isInteger]
    simp [Bool.and_assoc]

/-- C6: for every folded qualifier buffer with its leading `/`, the split of
`parseQualifier` agrees with the claimed rule: if no `=` is present or the
first `=` is the final character, the key is the text after the leading `/`
and the value null; otherwise the key is the text strictly between the leading
`/` and the first `=` and the value the text after that `=`. -/
theorem c6_qualifier_split :
    ∀ b : List Char, b.head? = some '/' →
      qualifierSplit b = Except.ok (qualifierSplitSpec b) := by
  intro b hb
  obtain ⟨t, rfl⟩ : ∃ t, b = '/' :: t := by
    cases b with
    | nil => simp at hb
    | cons a t => simp at hb; exact ⟨t, by rw [hb]⟩
  unfold qualifierSplit qualifierSplitSpec
  cases hf : ('/' :: t).findIdx? (fun c => c = '=') with
  | none =>
    simp only [hf, substrCnt]
    rw [if_pos (by simp)]
    rw [List.take_of_length_le (l := List.drop 1 ('/' :: t)) (by simp)]
  | some p =>
    have hbound : 1 ≤ p ∧ p - 1 < t.length := by
      rw [List.findIdx?_cons] at hf
      have hd : decide (('/' : Char) = '=') = false := by decide
      simp only [hd, Bool.false_eq_true, if_false] at hf
      exact findIdxGeAcc (fun c => c = '=') t 1 p hf
    obtain ⟨hp1, hplt⟩ := hbound
    simp only [hf, List.length_cons]
    by_cases hlast : p = t.length + 1 - 1
    · rw [if_pos hlast, if_pos hlast]
      simp only [substrCnt]
      rw [if_pos (by simp)]
      rw [List.take_of_length_le (l := List.drop 1 ('/' :: t)) (by simp)]
    · rw [if_neg hlast, if_neg hlast]
      rw [if_neg (by omega : ¬ p = 0)]
      simp only [substrCnt]
      rw [if_pos (by simp), if_pos (by simp only [List.length_cons]; omega)]
      have hkey : (('/' :: t).drop 1).take (p - 1) = (('/' :: t).take p).drop 1 := by
        rw [List.drop_take]
      have hval : (('/' :: t).drop (p + 1)).take (('/' :: t).length - p)
          = ('/' :: t).drop (p + 1) := by
        apply List.take_of_length_le
        simp only [List.length_drop, List.length_cons]
        omega
      simp only [List.length_cons] at hval
      rw [hkey, hval]

/-- C6 (witness): the split rule applied to concrete qualifier buffers with a
value, without a value, and with a trailing `=`. -/
theorem c6_qualifier_split_witness :
    ("/gene=x".data).head? = some '/' ∧
    qualifierSplit ("/gene=x".data) = Except.ok (("gene".data), some (("x".data))) ∧
    qualifierSplit ("/pseudo".data) = Except.ok (("pseudo".data), none) ∧
    qualifierSplit ("/x=".data) = Except.ok (("x=".data), none) :=
  ⟨by decide,
    (c6_qualifier_split ("/gene=x".data) (by decide)).trans (by decide),
    (c6_qualifier_split ("/pseudo".data) (by decide)).trans (by decide),
    (c6_qualifier_split ("/x=".data) (by decide)).trans (by decide)⟩

/-- C5: a String value of 65 characters consumed in SEQUENCE state emits
exactly two lines: the first with coordinate 1 right-justified in a
9-character field plus one space and bases 1–60 in six 10-base blocks
separated by single spaces, the second with coordinate 61 and the remaining
5 bases as one partial block; each line ends with a newline. -/
theorem c5_sequence_65_renders_two_lines :
    ∀ (h : JSONHandler) (v : List Char), h.state = HState.SEQUENCE → v.length = 65 →
      (stringEv h v).gb = h.gb
        ++ makeSpaces 8 ++ '1' :: ' '
          :: (v.take 10 ++ ' ' :: ((v.drop 10).take 10) ++ ' ' :: ((v.drop 20).take 10)
            ++ ' ' :: ((v.drop 30).take 10) ++ ' ' :: ((v.drop 40).take 10)
            ++ ' ' :: ((v.drop 50).take 10))
          ++ '\n'
          :: (makeSpaces 7 ++ '6' :: '1' :: ' ' :: (v.drop 60 ++ '\n' :: [])) := by
  intro h v hst hv
  obtain ⟨st, sk, gb, nw⟩ := h
  simp only at hst
  subst hst
  simp only [stringEv, handleSequence, hv]
  norm_num
  have hl1 : ((v.drop 0).take 60).length = 60 := by simp [hv]
  have hl2 : ((v.drop 60).take 60).length = 5 := by simp [hv]
  simp only [seqLines, hl1, hl2]
  norm_num
  simp only [seqSections]
  have htk : ∀ k, (v.take 60).drop k = (v.drop k).take (60 - k) := by
    intro k; rw [List.drop_take]
  have htt : ∀ a b, ((v.drop a).take b).take 10 = (v.drop a).take (min 10 b) := by
    intro a b; rw [List.take_take]
  have hd60 : (v.drop 60).take 60 = v.drop 60 := by
    apply List.take_of_length_le; simp [hv]
  have hd60' : (v.drop 60).take 10 = v.drop 60 := by
    apply List.take_of_length_le; simp [hv]
  have hr1 : (Nat.repr 1).data = ('1' :: []) := rfl
  have hr61 : (Nat.repr 61).data = ('6' :: '1' :: []) := rfl
  have hq1 : (Nat.repr 1).length = 1 := rfl
  have hq61 : (Nat.repr 61).length = 2 := rfl
  simp only [List.drop_zero, htk, htt, hd60, hd60', hr1, hr61, hq1, hq61]
  norm_num
  simp [hv]

/-- C5 (witness): the two-line rendering at a concrete 65-base sequence. -/
theorem c5_sequence_65_renders_two_lines_witness :
    (stringEv { state := HState.SEQUENCE, skipStateUpdate := false, gb := [], nwritten := 0 }
      (List.replicate 65 'a')).gb = ([] : List Char)
        ++ makeSpaces 8 ++ '1' :: ' '
          :: ((List.replicate 65 'a').take 10 ++ ' '
            :: (((List.replicate 65 'a').drop 10).take 10) ++ ' '
            :: (((List.replicate 65 'a').drop 20).take 10) ++ ' '
            :: (((List.replicate 65 'a').drop 30).take 10) ++ ' '
            :: (((List.replicate 65 'a').drop 40).take 10) ++ ' '
            :: (((List.replicate 65 'a').drop 50).take 10))
          ++ '\n'
          :: (makeSpaces 7 ++ '6' :: '1' :: ' ' :: ((List.replicate 65 'a').drop 60 ++ '\n' :: [])) :=
  c5_sequence_65_renders_two_lines
    { state := HState.SEQUENCE, skipStateUpdate := false, gb := [], nwritten := 0 }
    (List.replicate 65 'a') rfl (by decide)

theorem dropWhile_length_le (p : Char → Bool) (t : List Char) :
    (List.dropWhile p t).length ≤ t.length := by
  induction t with
  | nil => simp
  | cons a l ih =>
    rw [List.dropWhile_cons]
    by_cases h : p a = true
    · rw [if_pos h]
      simp only [List.length_cons]
      omega
    · rw [if_neg h]

theorem sgetline_rest_cons (cur rest : List Char) (e : Bool) (h : rest ≠ []) :
    sgetline { cur := cur, rest := rest, eof := e }
      = { cur := (getLine rest).1, rest := (getLine rest).2, eof := false } := by
  unfold sgetline
  cases rest with
  | nil => exact absurd rfl h
  | cons a t => rfl

theorem sgetline_rest_nil (cur : List Char) (e : Bool) :
    sgetline { cur := cur, rest := [], eof := e }
      = { cur := [], rest := [], eof := true } := rfl
theorem dropWhileSpaces_replicate (n : Nat) :
    List.dropWhile (fun c => isspaceC c) (List.replicate n ' ') = [] := by
  rw [List.dropWhile_replicate]
  simp [isspaceC]

theorem trimRight_append_spaces (s : List Char) (n : Nat) :
    stringTrimRight (s ++ List.replicate n ' ') = stringTrimRight s := by
  unfold stringTrimRight
  rw [List.reverse_append, List.reverse_replicate, List.dropWhile_append,
    dropWhileSpaces_replicate]
  simp

theorem trimRight_of_last_not_space (b : List Char) (h : b ≠ [])
    (hl : isspaceC (b.getLast h) = false) : stringTrimRight b = b := by
  unfold stringTrimRight
  cases hr : b.reverse with
  | nil => exact absurd (by simpa using congrArg List.reverse hr) h
  | cons c t =>
    rw [List.dropWhile_cons]
    have hc : isspaceC c = false := by
      have h1 : b.getLast? = some c := by
        rw [← List.head?_reverse, hr]
        rfl
      have h2 : b.getLast? = some (b.getLast h) := List.getLast?_eq_getLast b h
      rw [h1] at h2
      obtain rfl : c = b.getLast h := by injection h2
      exact hl
    rw [hc]
    simp only [Bool.false_eq_true, if_false]
    rw [← hr, List.reverse_reverse]

theorem getLine_append (l r : List Char) (hl : ∀ c ∈ l, c ≠ '\n' ∧ c ≠ '\r') :
    getLine (l ++ '\n' :: r) = (l, r) := by
  induction l with
  | nil => simp [getLine]
  | cons c t ih =>
    have hc := hl c (by simp)
    simp only [List.cons_append, getLine, List.append_eq]
    rw [if_neg hc.1, if_neg hc.2, ih (fun x hx => hl x (by simp [hx]))]

theorem getLine_no_newline (l : List Char) (hl : ∀ c ∈ l, c ≠ '\n' ∧ c ≠ '\r') :
    getLine l = (l, []) := by
  induction l with
  | nil => simp [getLine]
  | cons c t ih =>
    have hc := hl c (by simp)
    simp only [getLine, List.append_eq]
    rw [if_neg hc.1, if_neg hc.2, ih (fun x hx => hl x (by simp [hx]))]

theorem blockRestF_nil (f : Nat) (l w : Int) : blockRestF f [] l w = [] := by
  cases f <;> simp [blockRestF]


/-- Helper for C8 (parse side): `parseKeyword` on a keyword line with a
single trailing space followed by one continuation line folds the two back
fields newline-joined, with the trailing space preserved. -/
theorem c8AuxParse (k c1 b2 : List Char) (fuel : Nat)
    (hk0 : k ≠ []) (hk10 : k.length ≤ 10)
    (hkL : stringTrimLeft k = k) (hkR : stringTrimRight k = k)
    (hc1R : stringTrimRight c1 = c1)
    (hb2 : b2 ≠ []) (hb2last : isspaceC (b2.getLast hb2) = false)
    (hb2nl : ∀ c ∈ b2, c ≠ '\n' ∧ c ≠ '\r') :
    parseKeyword (fuel + 3)
      { cur := (k ++ List.replicate (12 - k.length) ' ') ++ (c1 ++ ' ' :: []),
        rest := (List.replicate 12 ' ' ++ b2) ++ '\n' :: [], eof := false } 0
    = Except.ok (JEvent.keyE k :: .sArr :: .strE (c1 ++ ' ' :: '\n' :: b2)
          :: .sArr :: .eArr :: .eArr :: [],
        { cur := [], rest := [], eof := true }) := by
  have hA : (k ++ List.replicate (12 - k.length) ' ').length = 12 := by
    simp; omega
  have hcur : ((k ++ List.replicate (12 - k.length) ' ') ++ (c1 ++ ' ' :: [])).length
      = 13 + c1.length := by
    simp [hA]
    omega
  have hsplit : splitLine ((k ++ List.replicate (12 - k.length) ' ') ++ (c1 ++ ' ' :: []))
      = Except.ok (k ++ List.replicate (10 - k.length) ' ', c1 ++ ' ' :: []) := by
    unfold splitLine substrFrom
    rw [if_pos (by rw [hcur]; omega)]
    have hdrop : ((k ++ List.replicate (12 - k.length) ' ') ++ (c1 ++ ' ' :: [])).drop 12
        = c1 ++ ' ' :: [] := by
      have h := List.drop_left (k ++ List.replicate (12 - k.length) ' ') (c1 ++ ' ' :: [])
      rw [hA] at h
      exact h
    have htake : ((k ++ List.replicate (12 - k.length) ' ') ++ (c1 ++ ' ' :: [])).take 10
        = k ++ List.replicate (10 - k.length) ' ' := by
      rw [List.take_append_eq_append_take]
      have h0 : (10 : Nat) - (k ++ List.replicate (12 - k.length) ' ').length = 0 := by
        rw [hA]
      rw [h0, List.take_zero, List.append_nil]
      rw [List.take_append_eq_append_take, List.take_of_length_le hk10,
        List.take_replicate]
      congr 1
      congr 1
      omega
    rw [hdrop, htake]
  have hback : backChar (c1 ++ ' ' :: []) = Except.ok ' ' := by
    unfold backChar
    rw [List.getLast?_concat]
  have hbuf : stringTrimRight (c1 ++ ' ' :: []) ++ (if isspaceC ' ' then [' '] else [])
      = c1 ++ ' ' :: [] := by
    rw [if_pos (by decide)]
    rw [show ((' ' :: []) : List Char) = List.replicate 1 ' ' from rfl,
      trimRight_append_spaces, hc1R]
  have hfront : stringTrim (k ++ List.replicate (10 - k.length) ' ') = k := by
    unfold stringTrim
    have h1 : stringTrimLeft (k ++ List.replicate (10 - k.length) ' ')
        = k ++ List.replicate (10 - k.length) ' ' := by
      obtain ⟨c, t, rfl⟩ : ∃ c t, k = c :: t := by
        cases k with
        | nil => exact absurd rfl hk0
        | cons c t => exact ⟨c, t, rfl⟩
      unfold stringTrimLeft at hkL ⊢
      rw [List.cons_append, List.dropWhile_cons]
      rw [List.dropWhile_cons] at hkL
      by_cases hc : isspaceC c = true
      · rw [if_pos hc] at hkL
        have hlen := congrArg List.length hkL
        have hle := dropWhile_length_le (fun c => isspaceC c) t
        simp at hlen
        omega
      · rw [if_neg hc]
    rw [h1, trimRight_append_spaces, hkR]
  have hsp : isspaceC ' ' = true := by decide
  have hnl : ∀ c ∈ List.replicate 12 ' ' ++ b2, c ≠ '\n' ∧ c ≠ '\r' := by
    intro c hc
    rcases List.mem_append.mp hc with h | h
    · have := List.eq_of_mem_replicate h
      subst this
      exact ⟨by decide, by decide⟩
    · exact hb2nl c h
  have hget : getLine ((List.replicate 12 ' ' ++ b2) ++ '\n' :: [])
      = (List.replicate 12 ' ' ++ b2, []) := getLine_append _ _ hnl
  have hcont : isContinuation (List.replicate 12 ' ' ++ b2) = true := by
    unfold isContinuation
    rw [List.take_append_eq_append_take, List.take_replicate]
    simp
  have hsplit2 : splitLine (List.replicate 12 ' ' ++ b2)
      = Except.ok ((List.replicate 12 ' ' ++ b2).take 10, b2) := by
    unfold splitLine substrFrom
    rw [if_pos (by simp)]
    have h := List.drop_left (List.replicate 12 ' ') b2
    rw [List.length_replicate] at h
    rw [h]
  have hbackb2 : backChar b2 = Except.ok (b2.getLast hb2) := by
    unfold backChar
    rw [List.getLast?_eq_getLast b2 hb2]
  have htr2 : stringTrimRight b2 = b2 := trimRight_of_last_not_space b2 hb2 hb2last
  have e1 : sgetline (GBStream.mk ((k ++ List.replicate (12 - k.length) ' ') ++ (c1 ++ ' ' :: []))
        ((List.replicate 12 ' ' ++ b2) ++ '\n' :: []) false)
      = GBStream.mk (List.replicate 12 ' ' ++ b2) [] false := by
    rw [sgetline_rest_cons _ _ _ (by simp), hget]
  have e1b : sgetline (GBStream.mk (List.replicate 12 ' ' ++ b2) [] false)
      = GBStream.mk [] [] true := sgetline_rest_nil _ _
  have hconte : isContinuation ([] : List Char) = false := by decide
  have hitem : isItemLevel 1 ([] : List Char) = false := by decide
  have htr1 : stringTrimRight (c1 ++ ' ' :: []) = c1 := by
    rw [show ((' ' :: []) : List Char) = List.replicate 1 ' ' from rfl,
      trimRight_append_spaces, hc1R]
  simp only [parseKeyword, hsplit, hback, hsp, if_true, hfront, e1, kwContLoop, hcont,
    hsplit2, hbackb2, hb2last, Bool.false_eq_true, if_false, htr2, htr1, List.append_nil,
    e1b, hconte, kwSubLoop, hitem]
  rw [if_pos (by norm_num : (0 : Nat) < 2)]
  simp [hitem]

/-- Helper for C8 (rewrap side): `blockPad` at left margin 12 and width 79
splits the folded value back into the original value line and the original
padded continuation line. -/
theorem c8AuxWrap (c1 b2 : List Char)
    (hc1nl : ∀ c ∈ c1, c ≠ '\n' ∧ c ≠ '\r') (hc1len : c1.length ≤ 66)
    (hb2 : b2 ≠ []) (hb2len : b2.length ≤ 67)
    (hb2nl : ∀ c ∈ b2, c ≠ '\n' ∧ c ≠ '\r') :
    blockPad (c1 ++ ' ' :: '\n' :: b2) 12 79 0
      = c1 ++ ' ' :: '\n' :: (List.replicate 12 ' ' ++ (b2 ++ '\n' :: [])) := by
  have hnlf : ∀ c ∈ c1 ++ ' ' :: [], c ≠ '\n' ∧ c ≠ '\r' := by
    intro c hc
    rcases List.mem_append.mp hc with h | h
    · exact hc1nl c h
    · simp at h
      subst h
      exact ⟨by decide, by decide⟩
  have hg1 : getLine (c1 ++ ' ' :: '\n' :: b2) = (c1 ++ ' ' :: [], b2) := by
    have hre : c1 ++ ' ' :: '\n' :: b2 = (c1 ++ ' ' :: []) ++ '\n' :: b2 := by simp
    rw [hre, getLine_append _ _ hnlf]
  have hlen1 : ((c1 ++ ' ' :: []).length : Int) = (c1.length : Int) + 1 := by simp
  have hnf1 : ceilDivI ((c1.length : Int) + 1 + 0) 67 = 1 := by
    unfold ceilDivI
    rw [Int.fdiv_eq_ediv _ (by omega)]
    omega
  have htk1 : (c1 ++ ' ' :: []).take ((67 - 0 : Int)).toNat = c1 ++ ' ' :: [] := by
    apply List.take_of_length_le
    simp
    omega
  obtain ⟨bh, bt, rfl⟩ : ∃ h t, b2 = h :: t := by
    cases b2 with
    | nil => exact absurd rfl hb2
    | cons h t => exact ⟨h, t, rfl⟩
  have hb2len2 : bt.length + 1 ≤ 67 := by simpa using hb2len
  have hg2 : getLine (bh :: bt) = (bh :: bt, []) := getLine_no_newline _ hb2nl
  have htk2 : (bh :: bt).take ((67 : Int)).toNat = bh :: bt := by
    apply List.take_of_length_le
    simp
    omega
  have htk2b : (bh :: bt).take 67 = bh :: bt := by
    apply List.take_of_length_le
    simp
    omega
  have htk1b : (c1 ++ ' ' :: []).take 67 = c1 ++ ' ' :: [] := by
    apply List.take_of_length_le
    simp
    omega
  have hnf1b : ceilDivI ((c1.length : Int) + 1) 67 = 1 := by
    unfold ceilDivI
    rw [Int.fdiv_eq_ediv _ (by omega)]
    omega
  have hnf2b : ceilDivI ((bt.length : Int) + 1) 67 = 1 := by
    unfold ceilDivI
    rw [Int.fdiv_eq_ediv _ (by omega)]
    omega
  unfold blockPad
  rw [if_neg (by norm_num)]
  simp only [hg1, hlen1, blockRestF, hg2]
  norm_num
  rw [hnf1b, hnf2b]
  rw [blockRestF_nil]
  norm_num [fragLoop1, fragLoop2, makeSpaces, htk1b, htk2b]
  rw [show Int.toNat 67 = 67 from rfl, show Int.toNat 12 = 12 from rfl]
  rw [htk1b, htk2b]
  simp


/-- C8: for a Keyword entry made of one line whose back field carries a single
trailing space followed by one continuation line, parsing folds the two back
fields newline-joined with the single space re-appended at the wrap boundary,
and re-wrapping the folded value through the text wrapper at left margin 12
and width 79 (prefixed by the key padded to the value column, as the Key event
writes it) reproduces the original two physical lines byte for byte.  The
hypotheses describe a well-formed entry: the key is at most 10 characters with
no surrounding whitespace, the back fields are newline-free, the value line
fits the 79-column width (back field of at most 66 characters plus the space),
and the continuation back field is non-empty with no trailing whitespace and
at most 67 characters. -/
theorem c8_fold_and_rewrap (k c1 b2 : List Char)
    (hk0 : k ≠ []) (hk10 : k.length ≤ 10)
    (hkL : stringTrimLeft k = k) (hkR : stringTrimRight k = k)
    (hc1R : stringTrimRight c1 = c1) (hc1nl : ∀ c ∈ c1, c ≠ '\n' ∧ c ≠ '\r')
    (hc1len : c1.length ≤ 66)
    (hb2 : b2 ≠ []) (hb2last : isspaceC (b2.getLast hb2) = false)
    (hb2nl : ∀ c ∈ b2, c ≠ '\n' ∧ c ≠ '\r') (hb2len : b2.length ≤ 67) :
    (∀ fuel, parseKeyword (fuel + 3)
        (GBStream.mk ((k ++ List.replicate (12 - k.length) ' ') ++ (c1 ++ ' ' :: []))
          ((List.replicate 12 ' ' ++ b2) ++ '\n' :: []) false) 0
      = Except.ok (JEvent.keyE k :: .sArr :: .strE (c1 ++ ' ' :: '\n' :: b2)
            :: .sArr :: .eArr :: .eArr :: [],
          GBStream.mk [] [] true)) ∧
    blockPad (c1 ++ ' ' :: '\n' :: b2) 12 79 0
      = c1 ++ ' ' :: '\n' :: (List.replicate 12 ' ' ++ (b2 ++ '\n' :: [])) ∧
    (k ++ List.replicate (12 - k.length) ' ') ++ blockPad (c1 ++ ' ' :: '\n' :: b2) 12 79 0
      = ((k ++ List.replicate (12 - k.length) ' ') ++ (c1 ++ ' ' :: [])) ++ '\n'
          :: ((List.replicate 12 ' ' ++ b2) ++ '\n' :: []) := by
  have hwrap := c8AuxWrap c1 b2 hc1nl hc1len hb2 hb2len hb2nl
  refine ⟨fun fuel => c8AuxParse k c1 b2 fuel hk0 hk10 hkL hkR hc1R hb2 hb2last hb2nl,
    hwrap, ?_⟩
  rw [hwrap]
  simp

/-- C8 (witness): the fold/rewrap round trip at the concrete entry
`DEFINITION  hello ` over `            world`. -/
theorem c8_fold_and_rewrap_witness :
    parseKeyword 3
        (GBStream.mk ((("DEFINITION".data)
            ++ List.replicate (12 - ("DEFINITION".data).length) ' ')
            ++ (("hello".data) ++ ' ' :: []))
          ((List.replicate 12 ' ' ++ ("world".data)) ++ '\n' :: []) false) 0
      = Except.ok (JEvent.keyE ("DEFINITION".data) :: .sArr
            :: .strE (("hello".data) ++ ' ' :: '\n' :: ("world".data))
            :: .sArr :: .eArr :: .eArr :: [],
          GBStream.mk [] [] true) ∧
    (("DEFINITION".data) ++ List.replicate (12 - ("DEFINITION".data).length) ' ')
        ++ blockPad (("hello".data) ++ ' ' :: '\n' :: ("world".data)) 12 79 0
      = ((("DEFINITION".data) ++ List.replicate (12 - ("DEFINITION".data).length) ' ')
          ++ (("hello".data) ++ ' ' :: [])) ++ '\n'
          :: ((List.replicate 12 ' ' ++ ("world".data)) ++ '\n' :: []) := by
  have h := c8_fold_and_rewrap ("DEFINITION".data) ("hello".data) ("world".data)
    (by decide) (by decide) (by decide) (by decide) (by decide) (by decide) (by decide)
    (by decide) (by decide) (by decide) (by decide)
  exact ⟨h.1 0, h.2.2⟩

theorem getLine_rest_length_le (s : List Char) : (getLine s).2.length ≤ s.length := by
  induction s with
  | nil => simp [getLine]
  | cons c r ih =>
    simp only [getLine]
    repeat' split
    all_goals simp_all
    all_goals omega

theorem getLine_rest_length_lt (s : List Char) (h : s ≠ []) :
    (getLine s).2.length < s.length := by
  cases s with
  | nil => exact absurd rfl h
  | cons c r =>
    have hle := getLine_rest_length_le r
    simp only [getLine]
    repeat' split
    all_goals simp_all
    all_goals omega

theorem linesF_congr : ∀ (f1 f2 : Nat) (s : List Char),
    s.length < f1 → s.length < f2 → linesF f1 s = linesF f2 s := by
  intro f1
  induction f1 with
  | zero => intro f2 s h1 h2; omega
  | succ g ih =>
    intro f2 s h1 h2
    cases f2 with
    | zero => omega
    | succ h =>
      cases s with
      | nil => simp [linesF]
      | cons c r =>
        simp only [linesF]
        have hlt := getLine_rest_length_lt (c :: r) (by simp)
        simp only [List.length_cons] at h1 h2 hlt
        congr 1
        apply ih <;> omega

theorem linesOf_cons (s : List Char) (h : s ≠ []) :
    linesOf s = (getLine s).1 :: linesOf (getLine s).2 := by
  unfold linesOf
  cases s with
  | nil => exact absurd rfl h
  | cons c r =>
    simp only [linesF]
    congr 1
    have hlt := getLine_rest_length_lt (c :: r) (by simp)
    simp only [List.length_cons] at hlt ⊢
    apply linesF_congr <;> omega

theorem sgetline_wf (st : GBStream) : wfS (sgetline st) := by
  unfold sgetline wfS
  cases st.rest with
  | nil => intro; exact ⟨rfl, rfl⟩
  | cons c r => intro h; exact absurd h (by simp)

theorem meas_sgetline_le (st : GBStream) : meas (sgetline st) ≤ meas st := by
  unfold sgetline meas
  cases hr : st.rest with
  | nil =>
    simp
  | cons c r =>
    simp only
    have hlt := getLine_rest_length_lt (c :: r) (by simp)
    simp only [List.length_cons] at hlt
    split <;> simp <;> omega

theorem meas_sgetline_lt (st : GBStream) (h : st.eof = false) :
    meas (sgetline st) < meas st := by
  unfold sgetline meas
  cases hr : st.rest with
  | nil => simp [h]
  | cons c r =>
    simp only [h]
    have hlt := getLine_rest_length_lt (c :: r) (by simp)
    simp only [List.length_cons] at hlt
    simp
    omega

theorem slines_sgetline (st : GBStream) (hwf : wfS st) :
    slines (sgetline st) = (slines st).tail := by
  unfold sgetline slines
  cases hr : st.rest with
  | nil =>
    by_cases he : st.eof = true
    · simp [he]
    · simp only [Bool.not_eq_true] at he
      simp [he, linesOf, linesF]
  | cons c r =>
    have he : st.eof = false := by
      by_cases h : st.eof = true
      · exact absurd (hwf h).2 (by rw [hr]; simp)
      · simpa using h
    simp only [he]
    simp only [Bool.false_eq_true, if_false]
    rw [← hr, linesOf_cons st.rest (by rw [hr]; simp)]
    rfl

theorem take_sub (l B : List Char) (a b : Nat) (hab : a ≤ b) (h : l.take b = B) :
    l.take a = B.take a := by
  rw [← h, List.take_take, Nat.min_eq_left hab]

theorem isLocus_false_of_take5 (l : List Char)
    (h : l.take 5 ≠ ('L' :: 'O' :: 'C' :: 'U' :: 'S' :: [])) : isLocus l = false := by
  unfold isLocus
  rw [decide_eq_false h]
  simp

theorem isContinuation_not_locus (l : List Char) (h : isContinuation l = true) :
    isLocus l = false := by
  unfold isContinuation at h
  simp only [Bool.and_eq_true, decide_eq_true_eq] at h
  apply isLocus_false_of_take5
  rw [take_sub l _ 5 11 (by omega) h.2]
  decide

theorem isSubkeyword_not_locus (l : List Char) (h : isSubkeyword l = true) :
    isLocus l = false := by
  unfold isSubkeyword at h
  simp only [Bool.and_eq_true, decide_eq_true_eq] at h
  apply isLocus_false_of_take5
  intro h5
  have := take_sub l _ 2 5 (by omega) h5
  rw [h.1.2] at this
  exact absurd this (by decide)

theorem isSubsubkeyword_not_locus (l : List Char) (h : isSubsubkeyword l = true) :
    isLocus l = false := by
  unfold isSubsubkeyword at h
  simp only [Bool.and_eq_true, decide_eq_true_eq] at h
  apply isLocus_false_of_take5
  intro h5
  have := take_sub l _ 3 5 (by omega) h5
  rw [h.1.2] at this
  exact absurd this (by decide)

theorem isFeature_not_locus (l : List Char) (h : isFeature l = true) :
    isLocus l = false := by
  unfold isFeature at h
  simp only [Bool.and_eq_true, decide_eq_true_eq] at h
  apply isLocus_false_of_take5
  rw [h.1.2]
  decide

theorem isContig_not_locus (l : List Char) (h : isContig l = true) :
    isLocus l = false := by
  unfold isContig at h
  simp only [Bool.and_eq_true, decide_eq_true_eq] at h
  apply isLocus_false_of_take5
  intro h5
  have := take_sub l _ 5 6 (by omega) h.2
  rw [h5] at this
  exact absurd this (by decide)

theorem isSequence_not_locus (l : List Char) (h : isSequence l = true) :
    isLocus l = false := by
  apply isLocus_false_of_take5
  intro h5
  unfold isSequence at h
  have hl : l = ('L' :: 'O' :: 'C' :: 'U' :: 'S' :: []) ++ l.drop 5 := by
    conv_lhs => rw [← List.take_append_drop 5 l]
    rw [h5]
  rw [hl] at h
  by_cases hlen : (('L' :: 'O' :: 'C' :: 'U' :: 'S' :: []) ++ l.drop 5).length < 11
  · rw [if_pos hlen] at h
    exact absurd h (by simp)
  · rw [if_neg hlen] at h
    simp only [List.cons_append, List.drop_succ_cons, List.drop_zero, List.nil_append] at h
    simp only [List.take_cons, stringTrimLeft] at h
    simp [isInteger, isdigitC, isspaceC] at h

theorem isItemLevel_not_locus (i : Nat) (l : List Char) (h : isItemLevel i l = true)
    (hi : 1 ≤ i) : isLocus l = false := by
  match i with
  | 1 => exact isSubkeyword_not_locus l h
  | 2 => exact isSubsubkeyword_not_locus l h
  | n + 3 => exact absurd h (by simp [isItemLevel])

theorem isContinuation_ne_nil (l : List Char) (h : isContinuation l = true) : l ≠ [] := by
  intro hl
  subst hl
  exact absurd h (by decide)

theorem substrFrom_ne_oof (s : List Char) (pos : Nat) :
    substrFrom s pos ≠ Except.error GBFail.outOfFuel := by
  unfold substrFrom
  split <;> simp

theorem substrCnt_ne_oof (s : List Char) (pos cnt : Nat) :
    substrCnt s pos cnt ≠ Except.error GBFail.outOfFuel := by
  unfold substrCnt
  split <;> simp

theorem backChar_ne_oof (s : List Char) :
    backChar s ≠ Except.error GBFail.outOfFuel := by
  unfold backChar
  split <;> simp

theorem splitLine_ne_oof (l : List Char) :
    splitLine l ≠ Except.error GBFail.outOfFuel := by
  unfold splitLine
  cases h : substrFrom l 12 with
  | error e =>
    have h2 := substrFrom_ne_oof l 12
    rw [h] at h2
    intro hc
    cases hc
    exact h2 rfl
  | ok b => simp

theorem splitFeatureLine_ne_oof (l : List Char) :
    splitFeatureLine l ≠ Except.error GBFail.outOfFuel := by
  unfold splitFeatureLine
  cases h : substrFrom l 21 with
  | error e =>
    have h2 := substrFrom_ne_oof l 21
    rw [h] at h2
    intro hc
    cases hc
    exact h2 rfl
  | ok b => simp

theorem splitSequenceLine_ne_oof (l : List Char) :
    splitSequenceLine l ≠ Except.error GBFail.outOfFuel := by
  unfold splitSequenceLine
  cases h : substrFrom l 10 with
  | error e =>
    have h2 := substrFrom_ne_oof l 10
    rw [h] at h2
    intro hc
    cases hc
    exact h2 rfl
  | ok b => simp

theorem qualifierSplit_ne_oof (b : List Char) :
    qualifierSplit b ≠ Except.error GBFail.outOfFuel := by
  have hcnt : ∀ (x y : Nat),
      (match substrCnt b x y with
        | Except.error e => Except.error e
        | Except.ok k => Except.ok (k, (none : Option (List Char))))
        ≠ Except.error GBFail.outOfFuel := by
    intro x y
    cases h : substrCnt b x y with
    | error e =>
      have h2 := substrCnt_ne_oof b x y
      rw [h] at h2
      intro hc
      cases hc
      exact h2 rfl
    | ok k => simp
  unfold qualifierSplit
  cases hf : b.findIdx? (fun c => c = '=') with
  | none => exact hcnt 1 b.length
  | some p =>
    by_cases hp : p = b.length - 1
    · simp only [if_pos hp]
      exact hcnt 1 b.length
    · simp only [if_neg hp]
      cases h : substrCnt b 1 (if p = 0 then b.length else p - 1) with
      | error e =>
        have h2 := substrCnt_ne_oof b 1 (if p = 0 then b.length else p - 1)
        rw [h] at h2
        intro hc
        cases hc
        exact h2 rfl
      | ok k =>
        cases h3 : substrCnt b (p + 1) (b.length - p) with
        | error e =>
          have h2 := substrCnt_ne_oof b (p + 1) (b.length - p)
          rw [h3] at h2
          intro hc
          cases hc
          exact h2 rfl
        | ok v => simp

theorem runD_append (a b : List JEvent) :
    ∀ d, runD (a ++ b) d = (runD a d).bind (fun x => runD b x) := by
  induction a with
  | nil => intro d; simp [runD]
  | cons e t ih =>
    intro d
    cases e <;> simp only [List.cons_append, runD]
    case sArr => exact ih _
    case sObj => exact ih _
    case eArr => cases d with | zero => simp | succ d' => exact ih d'
    case eObj => cases d with | zero => simp | succ d' => exact ih d'
    case keyE s => exact ih _
    case strE s => exact ih _
    case nullE => exact ih _

theorem objRun_append (a b : List JEvent) :
    ∀ d m, objRun (a ++ b) d m = (objRun a d m).bind (fun x => objRun b x.1 x.2) := by
  induction a with
  | nil => intro d m; simp [objRun]
  | cons e t ih =>
    intro d m
    cases e <;> simp only [List.cons_append, objRun]
    case sArr => exact ih _ _
    case sObj => exact ih _ _
    case eArr => exact ih _ _
    case eObj => cases d with | zero => simp | succ d' => exact ih d' m
    case keyE s => exact ih _ _
    case strE s => exact ih _ _
    case nullE => exact ih _ _

theorem evOK_nil : evOK [] := by
  intro d
  simp [runD]

theorem evOK_append {a b : List JEvent} (ha : evOK a) (hb : evOK b) : evOK (a ++ b) := by
  intro d
  rw [runD_append, ha d]
  exact hb d

theorem evOK_obj_wrap {a b : List JEvent} (ha : evOK a) (hb : evOK b) :
    evOK (JEvent.sObj :: a ++ JEvent.eObj :: b) := by
  intro d
  simp only [runD, List.cons_append]
  show (runD (a ++ (JEvent.eObj :: b)) (d + 1)) = some d
  rw [runD_append, ha (d + 1)]
  simp only [Option.bind_some, runD]
  exact hb d

theorem objOK_nil (c : Nat) : objOK [] c := by
  intro d m
  exact ⟨m, by simp [objRun], by simp⟩

theorem objOK_mono {a : List JEvent} {c c' : Nat} (h : objOK a c) (hcc : c ≤ c') :
    objOK a c' := by
  intro d m
  obtain ⟨m2, h1, h2⟩ := h d m
  exact ⟨m2, h1, by simp at h2 ⊢; omega⟩

theorem objOK_append {a b : List JEvent} {c : Nat} (ha : objOK a c) (hb : objOK b c) :
    objOK (a ++ b) c := by
  intro d m
  obtain ⟨m1, h1, h2⟩ := ha d m
  obtain ⟨m2, h3, h4⟩ := hb d m1
  refine ⟨m2, ?_, ?_⟩
  · rw [objRun_append, h1]
    simpa using h3
  · simp at h2 h4 ⊢
    omega

theorem objOK_obj_wrap {a b : List JEvent} {c : Nat} (ha : objOK a c) (hb : objOK b (c + 1)) :
    objOK (JEvent.sObj :: a ++ JEvent.eObj :: b) (c + 1) := by
  intro d m
  obtain ⟨m1, h1, h2⟩ := ha (d + 1) (max m (d + 1))
  obtain ⟨m2, h3, h4⟩ := hb d m1
  refine ⟨m2, ?_, ?_⟩
  · show objRun (JEvent.sObj :: (a ++ JEvent.eObj :: b)) d m = some (d, m2)
    simp only [objRun]
    refine Eq.trans (objRun_append a (JEvent.eObj :: b) (d + 1) (max m (d + 1))) ?_
    rw [h1]
    simpa [objRun] using h3
  · simp at h2 h4 ⊢
    omega

theorem parseLocus_ne_oof (st : GBStream) :
    parseLocus st ≠ Except.error GBFail.outOfFuel := by
  unfold parseLocus
  cases h : substrCnt st.cur 12 (st.cur.length - 12) with
  | error e =>
    have h2 := substrCnt_ne_oof st.cur 12 (st.cur.length - 12)
    rw [h] at h2
    intro hc
    cases hc
    exact h2 rfl
  | ok back => simp

theorem parseLocus_ok (st : GBStream) (evts : List JEvent) (st' : GBStream)
    (h : parseLocus st = Except.ok (evts, st')) :
    st' = sgetline st ∧ evOK evts ∧ objOK evts 0 := by
  unfold parseLocus at h
  cases hs : substrCnt st.cur 12 (st.cur.length - 12) with
  | error e => rw [hs] at h; exact absurd h (by simp)
  | ok back =>
    rw [hs] at h
    simp only [Except.ok.injEq, Prod.mk.injEq] at h
    obtain ⟨h1, h2⟩ := h
    subst h1
    subst h2
    refine ⟨rfl, ?_, ?_⟩
    · intro d
      simp [runD]
    · intro d m
      refine ⟨m, by simp [objRun], by simp⟩

theorem parseOrigin_ne_oof (st : GBStream) :
    parseOrigin st ≠ Except.error GBFail.outOfFuel := by
  unfold parseOrigin
  cases h : substrCnt st.cur 6 73 with
  | error e =>
    have h2 := substrCnt_ne_oof st.cur 6 73
    rw [h] at h2
    intro hc
    cases hc
    exact h2 rfl
  | ok b => simp

theorem parseOrigin_ok (st : GBStream) (evts : List JEvent) (st' : GBStream)
    (h : parseOrigin st = Except.ok (evts, st')) :
    st' = st ∧ evOK evts ∧ objOK evts 0 := by
  unfold parseOrigin at h
  cases hs : substrCnt st.cur 6 73 with
  | error e => rw [hs] at h; exact absurd h (by simp)
  | ok b =>
    rw [hs] at h
    simp only [Except.ok.injEq, Prod.mk.injEq] at h
    obtain ⟨h1, h2⟩ := h
    subst h1
    subst h2
    refine ⟨rfl, ?_, ?_⟩
    · intro d
      by_cases hb : (stringTrimRight b).isEmpty <;> simp [hb, runD]
    · intro d m
      by_cases hb : (stringTrimRight b).isEmpty <;>
        exact ⟨m, by simp [hb, objRun], by simp⟩

theorem streamOK_rfl (st : GBStream) (h : wfS st) : streamOK st st :=
  ⟨h, Nat.le_refl _, List.suffix_refl _⟩

theorem streamOK_trans {a b c : GBStream} (h1 : streamOK a b) (h2 : streamOK b c) :
    streamOK a c :=
  ⟨h2.1, Nat.le_trans h2.2.1 h1.2.1, List.IsSuffix.trans h2.2.2 h1.2.2⟩

theorem streamOK_sgetline (st : GBStream) (h : wfS st) : streamOK st (sgetline st) := by
  refine ⟨sgetline_wf st, meas_sgetline_le st, ?_⟩
  rw [slines_sgetline st h]
  exact List.tail_suffix _

theorem keepLocus_rfl (st : GBStream) : keepLocus st st := fun _ _ h => h

theorem keepLocus_trans {a b c : GBStream} (h1 : keepLocus a b) (h2 : keepLocus b c) :
    keepLocus a c := fun l hl hm => h2 l hl (h1 l hl hm)

theorem keepLocus_sgetline (st : GBStream) (hwf : wfS st) (hcur : isLocus st.cur = false) :
    keepLocus st (sgetline st) := by
  intro l hl hm
  rw [slines_sgetline st hwf]
  unfold slines at hm ⊢
  by_cases he : st.eof = true
  · rw [if_pos he] at hm
    exact absurd hm (by simp)
  · simp only [Bool.not_eq_true] at he
    rw [he] at hm ⊢
    simp only [Bool.false_eq_true, if_false] at hm ⊢
    rcases List.mem_cons.mp hm with h | h
    · subst h
      rw [hl] at hcur
      exact absurd hcur (by simp)
    · simpa using h

theorem noEnd_of_suffix {st st' : GBStream} (h : slines st' <:+ slines st)
    (hne : ∀ l ∈ slines st, isEnd l = false) : ∀ l ∈ slines st', isEnd l = false :=
  fun l hm => hne l (h.subset hm)

theorem eof_false_of_cur_ne_nil {st : GBStream} (hwf : wfS st) (h : st.cur ≠ []) :
    st.eof = false := by
  cases he : st.eof
  · rfl
  · exact absurd (hwf he).1 h

theorem splitLine_ok_length {l : List Char} {p : List Char × List Char}
    (h : splitLine l = Except.ok p) : 12 ≤ l.length := by
  unfold splitLine substrFrom at h
  by_cases hle : 12 ≤ l.length
  · exact hle
  · rw [if_neg hle] at h
    exact absurd h (by simp)

theorem splitFeatureLine_ok_length {l : List Char} {p : List Char × List Char}
    (h : splitFeatureLine l = Except.ok p) : 21 ≤ l.length := by
  unfold splitFeatureLine substrFrom at h
  by_cases hle : 21 ≤ l.length
  · exact hle
  · rw [if_neg hle] at h
    exact absurd h (by simp)

theorem cur_mem_slines {st : GBStream} (h : st.eof = false) : st.cur ∈ slines st := by
  unfold slines
  rw [h]
  simp

theorem slines_eof {st : GBStream} (h : st.eof = true) : slines st = [] := by
  unfold slines
  rw [h]
  simp

theorem parserInv : ∀ fuel : Nat,
    (∀ st buffer, wfS st → meas st + 1 ≤ fuel →
      kwContLoop fuel st buffer ≠ Except.error GBFail.outOfFuel ∧
      ∀ r st', kwContLoop fuel st buffer = Except.ok (r, st') →
        streamOK st st' ∧ keepLocus st st') ∧
    (∀ st level, wfS st → level ≤ 2 → meas st + (3 - level) ≤ fuel →
      parseKeyword fuel st level ≠ Except.error GBFail.outOfFuel ∧
      ∀ evts st', parseKeyword fuel st level = Except.ok (evts, st') →
        wfS st' ∧ meas st' < meas st ∧ slines st' <:+ slines st ∧
        evOK evts ∧ objOK evts (2 - level) ∧
        (isLocus st.cur = false → keepLocus st st')) ∧
    (∀ st level, wfS st → level ≤ 2 → meas st + (3 - level) ≤ fuel →
      kwSubLoop fuel st level ≠ Except.error GBFail.outOfFuel ∧
      ∀ evts st', kwSubLoop fuel st level = Except.ok (evts, st') →
        streamOK st st' ∧ evOK evts ∧ objOK evts (2 - level) ∧ keepLocus st st') ∧
    (∀ st buffer back, wfS st → meas st + 1 ≤ fuel →
      qualContLoop fuel st buffer back ≠ Except.error GBFail.outOfFuel ∧
      ∀ r st', qualContLoop fuel st buffer back = Except.ok (r, st') →
        streamOK st st' ∧ keepLocus st st') ∧
    (∀ st, wfS st → meas st + 1 ≤ fuel →
      parseQualifier fuel st ≠ Except.error GBFail.outOfFuel ∧
      ∀ evts st', parseQualifier fuel st = Except.ok (evts, st') →
        wfS st' ∧ meas st' < meas st ∧ slines st' <:+ slines st ∧
        evOK evts ∧ objOK evts 1 ∧
        (isLocus st.cur = false → keepLocus st st')) ∧
    (∀ st buffer back, wfS st → meas st + 1 ≤ fuel →
      featLocLoop fuel st buffer back ≠ Except.error GBFail.outOfFuel ∧
      ∀ r st', featLocLoop fuel st buffer back = Except.ok (r, st') →
        streamOK st st' ∧ keepLocus st st') ∧
    (∀ st back, wfS st → meas st + 2 ≤ fuel →
      featQualLoop fuel st back ≠ Except.error GBFail.outOfFuel ∧
      ∀ evts st', featQualLoop fuel st back = Except.ok (evts, st') →
        streamOK st st' ∧ evOK evts ∧ objOK evts 1 ∧ keepLocus st st') ∧
    (∀ st, wfS st → meas st + 2 ≤ fuel →
      parseFeature fuel st ≠ Except.error GBFail.outOfFuel ∧
      ∀ evts st', parseFeature fuel st = Except.ok (evts, st') →
        wfS st' ∧ meas st' < meas st ∧ slines st' <:+ slines st ∧
        evOK evts ∧ objOK evts 2 ∧
        (isLocus st.cur = false → keepLocus st st')) ∧
    (∀ st, wfS st → meas st + 3 ≤ fuel →
      featLoop fuel st ≠ Except.error GBFail.outOfFuel ∧
      ∀ evts st', featLoop fuel st = Except.ok (evts, st') →
        streamOK st st' ∧ evOK evts ∧ objOK evts 2 ∧ keepLocus st st') ∧
    (∀ st, wfS st → meas st + 4 ≤ fuel →
      parseFeatures fuel st ≠ Except.error GBFail.outOfFuel ∧
      ∀ evts st', parseFeatures fuel st = Except.ok (evts, st') →
        wfS st' ∧ meas st' ≤ meas st ∧ (st.eof = false → meas st' < meas st) ∧
        slines st' <:+ slines st ∧ evOK evts ∧ objOK evts 2 ∧
        (isLocus st.cur = false → keepLocus st st')) ∧
    (∀ st buffer, wfS st → meas st + 1 ≤ fuel →
      seqLoop fuel st buffer ≠ Except.error GBFail.outOfFuel ∧
      ∀ r st', seqLoop fuel st buffer = Except.ok (r, st') →
        streamOK st st' ∧ keepLocus st st') ∧
    (∀ st, wfS st → meas st + 2 ≤ fuel →
      parseSequence fuel st ≠ Except.error GBFail.outOfFuel ∧
      ∀ evts st', parseSequence fuel st = Except.ok (evts, st') →
        wfS st' ∧ meas st' ≤ meas st ∧ (st.eof = false → meas st' < meas st) ∧
        slines st' <:+ slines st ∧ evOK evts ∧ objOK evts 0 ∧
        (isLocus st.cur = false → keepLocus st st')) ∧
    (∀ st, wfS st → st.eof = false → meas st + 5 ≤ fuel →
      parseItem fuel st ≠ Except.error GBFail.outOfFuel ∧
      ∀ evts st', parseItem fuel st = Except.ok (evts, st') →
        wfS st' ∧ meas st' < meas st ∧ slines st' <:+ slines st ∧
        objOK evts 3 ∧
        (isLocus st.cur = true → ∀ d, runD evts d = some (d + 1)) ∧
        (isLocus st.cur = false → isEnd st.cur = false →
          evOK evts ∧ keepLocus st st')) ∧
    (∀ st, wfS st → meas st + 6 ≤ fuel →
      gbLoop fuel st ≠ Except.error GBFail.outOfFuel ∧
      ∀ evts st', gbLoop fuel st = Except.ok (evts, st') →
        objOK evts 3 ∧
        ((∀ l ∈ slines st, isEnd l = false) →
          ∃ k, (∀ d, runD evts d = some (d + k)) ∧
            ((∃ l, l ∈ slines st ∧ isLocus l = true) → 1 ≤ k))) := by
  intro fuel
  induction fuel with
  | zero =>
    refine ⟨?_, ?_, ?_, ?_, ?_, ?_, ?_, ?_, ?_, ?_, ?_, ?_, ?_, ?_⟩
    · intro st buffer hwf hm; exact absurd hm (by omega)
    · intro st level hwf hlev hm; exact absurd hm (by omega)
    · intro st level hwf hlev hm; exact absurd hm (by omega)
    · intro st buffer back hwf hm; exact absurd hm (by omega)
    · intro st hwf hm; exact absurd hm (by omega)
    · intro st buffer back hwf hm; exact absurd hm (by omega)
    · intro st back hwf hm; exact absurd hm (by omega)
    · intro st hwf hm; exact absurd hm (by omega)
    · intro st hwf hm; exact absurd hm (by omega)
    · intro st hwf hm; exact absurd hm (by omega)
    · intro st buffer hwf hm; exact absurd hm (by omega)
    · intro st hwf hm; exact absurd hm (by omega)
    · intro st hwf he hm; exact absurd hm (by omega)
    · intro st hwf hm; exact absurd hm (by omega)
  | succ fuel ih =>
    obtain ⟨ihKC, ihPK, ihKS, ihQC, ihPQ, ihFL, ihFQ, ihPF, ihFP, ihPFS, ihSL, ihPS,
      ihPI, ihGB⟩ := ih
    refine ⟨?_, ?_, ?_, ?_, ?_, ?_, ?_, ?_, ?_, ?_, ?_, ?_, ?_, ?_⟩
    · intro st buffer hwf hm
      cases hc : isContinuation st.cur with
      | false =>
        have he : kwContLoop (fuel+1) st buffer = Except.ok (buffer, st) := by
          simp only [kwContLoop, hc, Bool.false_eq_true, if_false]
        refine ⟨by rw [he]; simp, ?_⟩
        intro r st' hok
        rw [he] at hok
        simp only [Except.ok.injEq, Prod.mk.injEq] at hok
        obtain ⟨h1, h2⟩ := hok
        subst h2
        exact ⟨streamOK_rfl st hwf, keepLocus_rfl st⟩
      | true =>
        have hne : st.cur ≠ [] := isContinuation_ne_nil _ hc
        have heof : st.eof = false := eof_false_of_cur_ne_nil hwf hne
        have hlt := meas_sgetline_lt st heof
        cases hs : splitLine st.cur with
        | error e =>
          have he : kwContLoop (fuel+1) st buffer = Except.error e := by
            simp only [kwContLoop, hc, if_true, hs]
          refine ⟨?_, ?_⟩
          · rw [he]
            intro hcon
            have h2 := splitLine_ne_oof st.cur
            rw [hs] at h2
            cases hcon
            exact h2 rfl
          · intro r st' hok
            rw [he] at hok
            exact absurd hok (by simp)
        | ok p =>
          obtain ⟨f, back⟩ := p
          cases hb : backChar back with
          | error e =>
            have he : kwContLoop (fuel+1) st buffer = Except.error e := by
              simp only [kwContLoop, hc, if_true, hs, hb]
            refine ⟨?_, ?_⟩
            · rw [he]
              intro hcon
              have h2 := backChar_ne_oof back
              rw [hb] at h2
              cases hcon
              exact h2 rfl
            · intro r st' hok
              rw [he] at hok
              exact absurd hok (by simp)
          | ok c =>
            have he : kwContLoop (fuel+1) st buffer
                = kwContLoop fuel (sgetline st)
                  (buffer ++ '\n' :: (stringTrimRight back
                    ++ (if isspaceC c then [' '] else []))) := by
              simp only [kwContLoop, hc, if_true, hs, hb]
            have hrec := ihKC (sgetline st)
              (buffer ++ '\n' :: (stringTrimRight back
                ++ (if isspaceC c then [' '] else [])))
              (sgetline_wf st) (by omega)
            refine ⟨?_, ?_⟩
            · rw [he]
              exact hrec.1
            · intro r st' hok
              rw [he] at hok
              obtain ⟨hso, hkl⟩ := hrec.2 r st' hok
              exact ⟨streamOK_trans (streamOK_sgetline st hwf) hso,
                keepLocus_trans
                  (keepLocus_sgetline st hwf (isContinuation_not_locus _ hc)) hkl⟩
    · intro st level hwf hlev hm
      cases hs : splitLine st.cur with
      | error e =>
        have he : parseKeyword (fuel+1) st level = Except.error e := by
          simp only [parseKeyword, hs]
        refine ⟨?_, ?_⟩
        · rw [he]
          intro hcon
          have h2 := splitLine_ne_oof st.cur
          rw [hs] at h2
          cases hcon
          exact h2 rfl
        · intro evts st' hok
          rw [he] at hok
          exact absurd hok (by simp)
      | ok p =>
        obtain ⟨front, back⟩ := p
        have hlen := splitLine_ok_length hs
        have hne : st.cur ≠ [] := by
          intro h0
          rw [h0] at hlen
          simp at hlen
        have heof : st.eof = false := eof_false_of_cur_ne_nil hwf hne
        have hlt := meas_sgetline_lt st heof
        cases hb : backChar back with
        | error e =>
          have he : parseKeyword (fuel+1) st level = Except.error e := by
            simp only [parseKeyword, hs, hb]
          refine ⟨?_, ?_⟩
          · rw [he]
            intro hcon
            have h2 := backChar_ne_oof back
            rw [hb] at h2
            cases hcon
            exact h2 rfl
          · intro evts st' hok
            rw [he] at hok
            exact absurd hok (by simp)
        | ok c =>
          have hkc := ihKC (sgetline st)
            (stringTrimRight back ++ (if isspaceC c then [' '] else []))
            (sgetline_wf st) (by omega)
          cases hkcr : kwContLoop fuel (sgetline st)
              (stringTrimRight back ++ (if isspaceC c then [' '] else [])) with
          | error e =>
            have he : parseKeyword (fuel+1) st level = Except.error e := by
              simp only [parseKeyword, hs, hb, hkcr]
            refine ⟨?_, ?_⟩
            · rw [he]
              intro hcon
              have h2 := hkc.1
              rw [hkcr] at h2
              cases hcon
              exact h2 rfl
            · intro evts st' hok
              rw [he] at hok
              exact absurd hok (by simp)
          | ok pq =>
            obtain ⟨buffer2, st2⟩ := pq
            obtain ⟨hso2, hkl2⟩ := hkc.2 buffer2 st2 hkcr
            have hks := ihKS st2 level hso2.1 hlev (by
              have := hso2.2.1
              omega)
            cases hksr : kwSubLoop fuel st2 level with
            | error e =>
              have he : parseKeyword (fuel+1) st level = Except.error e := by
                simp only [parseKeyword, hs, hb, hkcr, hksr]
              refine ⟨?_, ?_⟩
              · rw [he]
                intro hcon
                have h2 := hks.1
                rw [hksr] at h2
                cases hcon
                exact h2 rfl
              · intro evts st' hok
                rw [he] at hok
                exact absurd hok (by simp)
            | ok pq2 =>
              obtain ⟨subEvts, st3⟩ := pq2
              obtain ⟨hso3, hev3, hobj3, hkl3⟩ := hks.2 subEvts st3 hksr
              have he : parseKeyword (fuel+1) st level
                  = Except.ok (.keyE (stringTrim front) :: .sArr :: .strE buffer2
                      :: .sArr :: subEvts ++ .eArr :: .eArr :: [], st3) := by
                simp only [parseKeyword, hs, hb, hkcr, hksr]
              refine ⟨by rw [he]; simp, ?_⟩
              intro evts st' hok
              rw [he] at hok
              simp only [Except.ok.injEq, Prod.mk.injEq] at hok
              obtain ⟨h1, h2⟩ := hok
              subst h1
              subst h2
              refine ⟨hso3.1, ?_, ?_, ?_, ?_, ?_⟩
              · have := hso3.2.1
                have := hso2.2.1
                omega
              · exact List.IsSuffix.trans hso3.2.2
                  (List.IsSuffix.trans hso2.2.2 (streamOK_sgetline st hwf).2.2)
              · intro d
                show runD (subEvts ++ JEvent.eArr :: JEvent.eArr :: []) (d + 1 + 1)
                  = some d
                rw [runD_append, hev3 (d+1+1)]
                simp [runD]
              · intro d m
                obtain ⟨m2, h1, h2⟩ := hobj3 d m
                refine ⟨m2, ?_, h2⟩
                show objRun (subEvts ++ JEvent.eArr :: JEvent.eArr :: []) d m
                  = some (d, m2)
                rw [objRun_append, h1]
                simp [objRun]
              · intro hg
                exact keepLocus_trans (keepLocus_sgetline st hwf hg)
                  (keepLocus_trans hkl2 hkl3)
    · intro st level hwf hlev hm
      by_cases hl2 : level < 2
      · cases hil : isItemLevel (level+1) st.cur with
        | false =>
          have he : kwSubLoop (fuel+1) st level = Except.ok ([], st) := by
            simp only [kwSubLoop, if_pos hl2, hil, Bool.false_eq_true, if_false]
          refine ⟨by rw [he]; simp, ?_⟩
          intro evts st' hok
          rw [he] at hok
          simp only [Except.ok.injEq, Prod.mk.injEq] at hok
          obtain ⟨h1, h2⟩ := hok
          subst h1
          subst h2
          exact ⟨streamOK_rfl st hwf, evOK_nil, objOK_nil _, keepLocus_rfl st⟩
        | true =>
          have hpk := ihPK st (level+1) hwf (by omega) (by omega)
          cases hpkr : parseKeyword fuel st (level+1) with
          | error e =>
            have he : kwSubLoop (fuel+1) st level = Except.error e := by
              simp only [kwSubLoop, if_pos hl2, hil, if_true, hpkr]
            refine ⟨?_, ?_⟩
            · rw [he]
              intro hcon
              have h2 := hpk.1
              rw [hpkr] at h2
              cases hcon
              exact h2 rfl
            · intro evts st' hok
              rw [he] at hok
              exact absurd hok (by simp)
          | ok pq =>
            obtain ⟨evts1, st1⟩ := pq
            obtain ⟨hwf1, hlt1, hsuf1, hev1, hobj1, hkl1⟩ := hpk.2 evts1 st1 hpkr
            have hks := ihKS st1 level hwf1 hlev (by omega)
            cases hksr : kwSubLoop fuel st1 level with
            | error e =>
              have he : kwSubLoop (fuel+1) st level = Except.error e := by
                simp only [kwSubLoop, if_pos hl2, hil, if_true, hpkr, hksr]
              refine ⟨?_, ?_⟩
              · rw [he]
                intro hcon
                have h2 := hks.1
                rw [hksr] at h2
                cases hcon
                exact h2 rfl
              · intro evts st' hok
                rw [he] at hok
                exact absurd hok (by simp)
            | ok pq2 =>
              obtain ⟨evts2, st2⟩ := pq2
              obtain ⟨hso2, hev2, hobj2, hkl2⟩ := hks.2 evts2 st2 hksr
              have he : kwSubLoop (fuel+1) st level
                  = Except.ok (.sObj :: evts1 ++ .eObj :: evts2, st2) := by
                simp only [kwSubLoop, if_pos hl2, hil, if_true, hpkr, hksr]
              refine ⟨by rw [he]; simp, ?_⟩
              intro evts st' hok
              rw [he] at hok
              simp only [Except.ok.injEq, Prod.mk.injEq] at hok
              obtain ⟨h1, h2⟩ := hok
              subst h1
              subst h2
              refine ⟨streamOK_trans ⟨hwf1, Nat.le_of_lt hlt1, hsuf1⟩ hso2,
                evOK_obj_wrap hev1 hev2, ?_,
                keepLocus_trans (hkl1 (isItemLevel_not_locus _ _ hil (by omega))) hkl2⟩
              have hcap : 2 - (level+1) + 1 = 2 - level := by omega
              rw [← hcap] at hobj2 ⊢
              exact objOK_obj_wrap hobj1 hobj2
      · have he : kwSubLoop (fuel+1) st level = Except.ok ([], st) := by
          simp only [kwSubLoop, if_neg hl2]
        refine ⟨by rw [he]; simp, ?_⟩
        intro evts st' hok
        rw [he] at hok
        simp only [Except.ok.injEq, Prod.mk.injEq] at hok
        obtain ⟨h1, h2⟩ := hok
        subst h1
        subst h2
        exact ⟨streamOK_rfl st hwf, evOK_nil, objOK_nil _, keepLocus_rfl st⟩
    · intro st buffer back hwf hm
      cases hg : (!isQualifier back && isContinuation st.cur) with
      | false =>
        have he : qualContLoop (fuel+1) st buffer back = Except.ok (buffer, st) := by
          simp only [qualContLoop, hg, Bool.false_eq_true, if_false]
        refine ⟨by rw [he]; simp, ?_⟩
        intro r st' hok
        rw [he] at hok
        simp only [Except.ok.injEq, Prod.mk.injEq] at hok
        obtain ⟨h1, h2⟩ := hok
        subst h2
        exact ⟨streamOK_rfl st hwf, keepLocus_rfl st⟩
      | true =>
        have hcont : isContinuation st.cur = true := by
          simp only [Bool.and_eq_true, Bool.not_eq_eq_eq_not, Bool.not_true] at hg
          exact hg.2
        have hne : st.cur ≠ [] := isContinuation_ne_nil _ hcont
        have heof : st.eof = false := eof_false_of_cur_ne_nil hwf hne
        have hlt := meas_sgetline_lt st heof
        cases hb : backChar back with
        | error e =>
          have he : qualContLoop (fuel+1) st buffer back = Except.error e := by
            simp only [qualContLoop, hg, if_true, hb]
          refine ⟨?_, ?_⟩
          · rw [he]
            intro hcon
            have h2 := backChar_ne_oof back
            rw [hb] at h2
            cases hcon
            exact h2 rfl
          · intro r st' hok
            rw [he] at hok
            exact absurd hok (by simp)
        | ok c =>
          cases hc2 : isContinuation (sgetline st).cur with
          | false =>
            have he : qualContLoop (fuel+1) st buffer back
                = Except.ok (buffer ++ (if isspaceC c then [' '] else [])
                    ++ stringTrimRight back, sgetline st) := by
              simp only [qualContLoop, hg, if_true, hb, hc2, Bool.false_eq_true, if_false]
            refine ⟨by rw [he]; simp, ?_⟩
            intro r st' hok
            rw [he] at hok
            simp only [Except.ok.injEq, Prod.mk.injEq] at hok
            obtain ⟨h1, h2⟩ := hok
            subst h2
            exact ⟨streamOK_sgetline st hwf,
              keepLocus_sgetline st hwf (isContinuation_not_locus _ hcont)⟩
          | true =>
            cases hs2 : splitFeatureLine (sgetline st).cur with
            | error e =>
              have he : qualContLoop (fuel+1) st buffer back = Except.error e := by
                simp only [qualContLoop, hg, if_true, hb, hc2, hs2]
              refine ⟨?_, ?_⟩
              · rw [he]
                intro hcon
                have h2 := splitFeatureLine_ne_oof (sgetline st).cur
                rw [hs2] at h2
                cases hcon
                exact h2 rfl
              · intro r st' hok
                rw [he] at hok
                exact absurd hok (by simp)
            | ok p =>
              obtain ⟨f2, back2⟩ := p
              have he : qualContLoop (fuel+1) st buffer back
                  = qualContLoop fuel (sgetline st)
                    (buffer ++ (if isspaceC c then [' '] else [])
                      ++ stringTrimRight back) back2 := by
                simp only [qualContLoop, hg, if_true, hb, hc2, hs2]
              have hrec := ihQC (sgetline st)
                (buffer ++ (if isspaceC c then [' '] else []) ++ stringTrimRight back)
                back2 (sgetline_wf st) (by omega)
              refine ⟨?_, ?_⟩
              · rw [he]
                exact hrec.1
              · intro r st' hok
                rw [he] at hok
                obtain ⟨hso, hkl⟩ := hrec.2 r st' hok
                exact ⟨streamOK_trans (streamOK_sgetline st hwf) hso,
                  keepLocus_trans
                    (keepLocus_sgetline st hwf (isContinuation_not_locus _ hcont)) hkl⟩
    · intro st hwf hm
      cases hs : splitFeatureLine st.cur with
      | error e =>
        have he : parseQualifier (fuel+1) st = Except.error e := by
          simp only [parseQualifier, hs]
        refine ⟨?_, ?_⟩
        · rw [he]
          intro hcon
          have h2 := splitFeatureLine_ne_oof st.cur
          rw [hs] at h2
          cases hcon
          exact h2 rfl
        · intro evts st' hok
          rw [he] at hok
          exact absurd hok (by simp)
      | ok p =>
        obtain ⟨f, back⟩ := p
        have hne : st.cur ≠ [] := by
          have hlen := splitFeatureLine_ok_length hs
          intro h0
          rw [h0] at hlen
          simp at hlen
        have heof : st.eof = false := eof_false_of_cur_ne_nil hwf hne
        have hlt := meas_sgetline_lt st heof
        cases hb : backChar back with
        | error e =>
          have he : parseQualifier (fuel+1) st = Except.error e := by
            simp only [parseQualifier, hs, hb]
          refine ⟨?_, ?_⟩
          · rw [he]
            intro hcon
            have h2 := backChar_ne_oof back
            rw [hb] at h2
            cases hcon
            exact h2 rfl
          · intro evts st' hok
            rw [he] at hok
            exact absurd hok (by simp)
        | ok c =>
          cases hc1 : isContinuation (sgetline st).cur with
          | false =>
            cases hqs : qualifierSplit (stringTrimRight back
                ++ (if isspaceC c then [' '] else [])) with
            | error e =>
              have he : parseQualifier (fuel+1) st = Except.error e := by
                simp only [parseQualifier, hs, hb, hc1, Bool.false_eq_true, if_false, hqs]
              refine ⟨?_, ?_⟩
              · rw [he]
                intro hcon
                have h2 := qualifierSplit_ne_oof (stringTrimRight back
                  ++ (if isspaceC c then [' '] else []))
                rw [hqs] at h2
                cases hcon
                exact h2 rfl
              · intro evts st' hok
                rw [he] at hok
                exact absurd hok (by simp)
            | ok q =>
              obtain ⟨k, v⟩ := q
              cases v with
              | none =>
                have he : parseQualifier (fuel+1) st
                    = Except.ok (.sObj :: .keyE k :: JEvent.nullE
                        :: .eObj :: [], sgetline st) := by
                  simp only [parseQualifier, hs, hb, hc1, Bool.false_eq_true, if_false,
                    hqs]
                refine ⟨by rw [he]; simp, ?_⟩
                intro evts st' hok
                rw [he] at hok
                simp only [Except.ok.injEq, Prod.mk.injEq] at hok
                obtain ⟨h1, h2⟩ := hok
                subst h1
                subst h2
                refine ⟨sgetline_wf st, hlt, (streamOK_sgetline st hwf).2.2, ?_, ?_, ?_⟩
                · intro d
                  simp [runD]
                · intro d m
                  exact ⟨max m (d+1), by simp [objRun], by simp⟩
                · intro hg
                  exact keepLocus_sgetline st hwf hg
              | some s =>
                have he : parseQualifier (fuel+1) st
                    = Except.ok (.sObj :: .keyE k :: .strE s
                        :: .eObj :: [], sgetline st) := by
                  simp only [parseQualifier, hs, hb, hc1, Bool.false_eq_true, if_false,
                    hqs]
                refine ⟨by rw [he]; simp, ?_⟩
                intro evts st' hok
                rw [he] at hok
                simp only [Except.ok.injEq, Prod.mk.injEq] at hok
                obtain ⟨h1, h2⟩ := hok
                subst h1
                subst h2
                refine ⟨sgetline_wf st, hlt, (streamOK_sgetline st hwf).2.2, ?_, ?_, ?_⟩
                · intro d
                  simp [runD]
                · intro d m
                  exact ⟨max m (d+1), by simp [objRun], by simp⟩
                · intro hg
                  exact keepLocus_sgetline st hwf hg
          | true =>
            cases hs2 : splitFeatureLine (sgetline st).cur with
            | error e =>
              have he : parseQualifier (fuel+1) st = Except.error e := by
                simp only [parseQualifier, hs, hb, hc1, if_true, hs2]
              refine ⟨?_, ?_⟩
              · rw [he]
                intro hcon
                have h2 := splitFeatureLine_ne_oof (sgetline st).cur
                rw [hs2] at h2
                cases hcon
                exact h2 rfl
              · intro evts st' hok
                rw [he] at hok
                exact absurd hok (by simp)
            | ok p2 =>
              obtain ⟨f2, back2⟩ := p2
              have hrec := ihQC (sgetline st)
                (stringTrimRight back ++ (if isspaceC c then [' '] else []))
                back2 (sgetline_wf st) (by omega)
              cases hq : qualContLoop fuel (sgetline st)
                  (stringTrimRight back ++ (if isspaceC c then [' '] else [])) back2 with
              | error e =>
                have he : parseQualifier (fuel+1) st = Except.error e := by
                  simp only [parseQualifier, hs, hb, hc1, if_true, hs2, hq]
                refine ⟨?_, ?_⟩
                · rw [he]
                  intro hcon
                  have h2 := hrec.1
                  rw [hq] at h2
                  cases hcon
                  exact h2 rfl
                · intro evts st' hok
                  rw [he] at hok
                  exact absurd hok (by simp)
              | ok pq =>
                obtain ⟨buffer2, st2⟩ := pq
                obtain ⟨hso, hkl⟩ := hrec.2 buffer2 st2 hq
                cases hqs : qualifierSplit buffer2 with
                | error e =>
                  have he : parseQualifier (fuel+1) st = Except.error e := by
                    simp only [parseQualifier, hs, hb, hc1, if_true, hs2, hq, hqs]
                  refine ⟨?_, ?_⟩
                  · rw [he]
                    intro hcon
                    have h2 := qualifierSplit_ne_oof buffer2
                    rw [hqs] at h2
                    cases hcon
                    exact h2 rfl
                  · intro evts st' hok
                    rw [he] at hok
                    exact absurd hok (by simp)
                | ok q =>
                  obtain ⟨k, v⟩ := q
                  cases v with
                  | none =>
                    have he : parseQualifier (fuel+1) st
                        = Except.ok (.sObj :: .keyE k :: JEvent.nullE
                            :: .eObj :: [], st2) := by
                      simp only [parseQualifier, hs, hb, hc1, if_true, hs2, hq, hqs]
                    refine ⟨by rw [he]; simp, ?_⟩
                    intro evts st' hok
                    rw [he] at hok
                    simp only [Except.ok.injEq, Prod.mk.injEq] at hok
                    obtain ⟨h1, h2⟩ := hok
                    subst h1
                    subst h2
                    refine ⟨hso.1, ?_, ?_, ?_, ?_, ?_⟩
                    · have := hso.2.1
                      omega
                    · exact List.IsSuffix.trans hso.2.2 (streamOK_sgetline st hwf).2.2
                    · intro d
                      simp [runD]
                    · intro d m
                      exact ⟨max m (d+1), by simp [objRun], by simp⟩
                    · intro hg
                      exact keepLocus_trans (keepLocus_sgetline st hwf hg) hkl
                  | some s =>
                    have he : parseQualifier (fuel+1) st
                        = Except.ok (.sObj :: .keyE k :: .strE s
                            :: .eObj :: [], st2) := by
                      simp only [parseQualifier, hs, hb, hc1, if_true, hs2, hq, hqs]
                    refine ⟨by rw [he]; simp, ?_⟩
                    intro evts st' hok
                    rw [he] at hok
                    simp only [Except.ok.injEq, Prod.mk.injEq] at hok
                    obtain ⟨h1, h2⟩ := hok
                    subst h1
                    subst h2
                    refine ⟨hso.1, ?_, ?_, ?_, ?_, ?_⟩
                    · have := hso.2.1
                      omega
                    · exact List.IsSuffix.trans hso.2.2 (streamOK_sgetline st hwf).2.2
                    · intro d
                      simp [runD]
                    · intro d m
                      exact ⟨max m (d+1), by simp [objRun], by simp⟩
                    · intro hg
                      exact keepLocus_trans (keepLocus_sgetline st hwf hg) hkl
    · intro st buffer back hwf hm
      cases hc : isContinuation st.cur with
      | false =>
        have he : featLocLoop (fuel+1) st buffer back = Except.ok ((buffer, back), st) := by
          simp only [featLocLoop, hc, Bool.false_eq_true, if_false]
        refine ⟨by rw [he]; simp, ?_⟩
        intro r st' hok
        rw [he] at hok
        simp only [Except.ok.injEq, Prod.mk.injEq] at hok
        obtain ⟨h1, h2⟩ := hok
        subst h2
        exact ⟨streamOK_rfl st hwf, keepLocus_rfl st⟩
      | true =>
        have hne : st.cur ≠ [] := isContinuation_ne_nil _ hc
        have heof : st.eof = false := eof_false_of_cur_ne_nil hwf hne
        have hlt := meas_sgetline_lt st heof
        cases hs : splitFeatureLine st.cur with
        | error e =>
          have he : featLocLoop (fuel+1) st buffer back = Except.error e := by
            simp only [featLocLoop, hc, if_true, hs]
          refine ⟨?_, ?_⟩
          · rw [he]
            intro hcon
            have h2 := splitFeatureLine_ne_oof st.cur
            rw [hs] at h2
            cases hcon
            exact h2 rfl
          · intro r st' hok
            rw [he] at hok
            exact absurd hok (by simp)
        | ok p =>
          obtain ⟨f2, back2⟩ := p
          cases hq : isQualifier back2 with
          | true =>
            have he : featLocLoop (fuel+1) st buffer back
                = Except.ok ((buffer, back2), st) := by
              simp only [featLocLoop, hc, if_true, hs, hq]
            refine ⟨by rw [he]; simp, ?_⟩
            intro r st' hok
            rw [he] at hok
            simp only [Except.ok.injEq, Prod.mk.injEq] at hok
            obtain ⟨h1, h2⟩ := hok
            subst h2
            exact ⟨streamOK_rfl st hwf, keepLocus_rfl st⟩
          | false =>
            cases hb : backChar back2 with
            | error e =>
              have he : featLocLoop (fuel+1) st buffer back = Except.error e := by
                simp only [featLocLoop, hc, if_true, hs, hq, Bool.false_eq_true,
                  if_false, hb]
              refine ⟨?_, ?_⟩
              · rw [he]
                intro hcon
                have h2 := backChar_ne_oof back2
                rw [hb] at h2
                cases hcon
                exact h2 rfl
              · intro r st' hok
                rw [he] at hok
                exact absurd hok (by simp)
            | ok c =>
              have he : featLocLoop (fuel+1) st buffer back
                  = featLocLoop fuel (sgetline st)
                    (buffer ++ (stringTrimRight back2
                      ++ (if isspaceC c then [' '] else [])))
                    (stringTrimRight back2 ++ (if isspaceC c then [' '] else [])) := by
                simp only [featLocLoop, hc, if_true, hs, hq, Bool.false_eq_true,
                  if_false, hb]
              have hrec := ihFL (sgetline st)
                (buffer ++ (stringTrimRight back2 ++ (if isspaceC c then [' '] else [])))
                (stringTrimRight back2 ++ (if isspaceC c then [' '] else []))
                (sgetline_wf st) (by omega)
              refine ⟨?_, ?_⟩
              · rw [he]
                exact hrec.1
              · intro r st' hok
                rw [he] at hok
                obtain ⟨hso, hkl⟩ := hrec.2 r st' hok
                exact ⟨streamOK_trans (streamOK_sgetline st hwf) hso,
                  keepLocus_trans
                    (keepLocus_sgetline st hwf (isContinuation_not_locus _ hc)) hkl⟩
    · intro st back hwf hm
      cases hg : (isQualifier back && isContinuation st.cur) with
      | false =>
        have he : featQualLoop (fuel+1) st back = Except.ok ([], st) := by
          simp only [featQualLoop, hg, Bool.false_eq_true, if_false]
        refine ⟨by rw [he]; simp, ?_⟩
        intro evts st' hok
        rw [he] at hok
        simp only [Except.ok.injEq, Prod.mk.injEq] at hok
        obtain ⟨h1, h2⟩ := hok
        subst h1
        subst h2
        exact ⟨streamOK_rfl st hwf, evOK_nil, objOK_nil 1, keepLocus_rfl st⟩
      | true =>
        have hcont : isContinuation st.cur = true := by
          simp only [Bool.and_eq_true] at hg
          exact hg.2
        have hpq := ihPQ st hwf (by omega)
        cases hp : parseQualifier fuel st with
        | error e =>
          have he : featQualLoop (fuel+1) st back = Except.error e := by
            simp only [featQualLoop, hg, if_true, hp]
          refine ⟨?_, ?_⟩
          · rw [he]
            intro hcon
            have h2 := hpq.1
            rw [hp] at h2
            cases hcon
            exact h2 rfl
          · intro evts st' hok
            rw [he] at hok
            exact absurd hok (by simp)
        | ok pq =>
          obtain ⟨evts1, st1⟩ := pq
          obtain ⟨hwf1, hlt1, hsuf1, hev1, hobj1, hkl1⟩ := hpq.2 evts1 st1 hp
          have hkl1a : keepLocus st st1 := hkl1 (isContinuation_not_locus _ hcont)
          cases hc2 : isContinuation st1.cur with
          | false =>
            have he : featQualLoop (fuel+1) st back = Except.ok (evts1, st1) := by
              simp only [featQualLoop, hg, if_true, hp, hc2, Bool.false_eq_true, if_false]
            refine ⟨by rw [he]; simp, ?_⟩
            intro evts st' hok
            rw [he] at hok
            simp only [Except.ok.injEq, Prod.mk.injEq] at hok
            obtain ⟨h1, h2⟩ := hok
            subst h1
            subst h2
            exact ⟨⟨hwf1, Nat.le_of_lt hlt1, hsuf1⟩, hev1, hobj1, hkl1a⟩
          | true =>
            cases hs2 : splitFeatureLine st1.cur with
            | error e =>
              have he : featQualLoop (fuel+1) st back = Except.error e := by
                simp only [featQualLoop, hg, if_true, hp, hc2, hs2]
              refine ⟨?_, ?_⟩
              · rw [he]
                intro hcon
                have h2 := splitFeatureLine_ne_oof st1.cur
                rw [hs2] at h2
                cases hcon
                exact h2 rfl
              · intro evts st' hok
                rw [he] at hok
                exact absurd hok (by simp)
            | ok p2 =>
              obtain ⟨f2, back2⟩ := p2
              have hrec := ihFQ st1 back2 hwf1 (by omega)
              cases hql : featQualLoop fuel st1 back2 with
              | error e =>
                have he : featQualLoop (fuel+1) st back = Except.error e := by
                  simp only [featQualLoop, hg, if_true, hp, hc2, hs2, hql]
                refine ⟨?_, ?_⟩
                · rw [he]
                  intro hcon
                  have h2 := hrec.1
                  rw [hql] at h2
                  cases hcon
                  exact h2 rfl
                · intro evts st' hok
                  rw [he] at hok
                  exact absurd hok (by simp)
              | ok pq2 =>
                obtain ⟨evts2, st2⟩ := pq2
                obtain ⟨hso2, hev2, hobj2, hkl2⟩ := hrec.2 evts2 st2 hql
                have he : featQualLoop (fuel+1) st back
                    = Except.ok (evts1 ++ evts2, st2) := by
                  simp only [featQualLoop, hg, if_true, hp, hc2, hs2, hql]
                refine ⟨by rw [he]; simp, ?_⟩
                intro evts st' hok
                rw [he] at hok
                simp only [Except.ok.injEq, Prod.mk.injEq] at hok
                obtain ⟨h1, h2⟩ := hok
                subst h1
                subst h2
                exact ⟨streamOK_trans ⟨hwf1, Nat.le_of_lt hlt1, hsuf1⟩ hso2,
                  evOK_append hev1 hev2, objOK_append hobj1 hobj2,
                  keepLocus_trans hkl1a hkl2⟩
    · intro st hwf hm
      cases hs : splitFeatureLine st.cur with
      | error e =>
        have he : parseFeature (fuel+1) st = Except.error e := by
          simp only [parseFeature, hs]
        refine ⟨?_, ?_⟩
        · rw [he]
          intro hcon
          have h2 := splitFeatureLine_ne_oof st.cur
          rw [hs] at h2
          cases hcon
          exact h2 rfl
        · intro evts st' hok
          rw [he] at hok
          exact absurd hok (by simp)
      | ok p =>
        obtain ⟨front, back⟩ := p
        have hlen := splitFeatureLine_ok_length hs
        have hne : st.cur ≠ [] := by
          intro h0
          rw [h0] at hlen
          simp at hlen
        have heof : st.eof = false := eof_false_of_cur_ne_nil hwf hne
        have hlt := meas_sgetline_lt st heof
        have hfl := ihFL (sgetline st) (stringTrimRight back) back
          (sgetline_wf st) (by omega)
        cases hflr : featLocLoop fuel (sgetline st) (stringTrimRight back) back with
        | error e =>
          have he : parseFeature (fuel+1) st = Except.error e := by
            simp only [parseFeature, hs, hflr]
          refine ⟨?_, ?_⟩
          · rw [he]
            intro hcon
            have h2 := hfl.1
            rw [hflr] at h2
            cases hcon
            exact h2 rfl
          · intro evts st' hok
            rw [he] at hok
            exact absurd hok (by simp)
        | ok pq =>
          obtain ⟨pr, st2⟩ := pq
          obtain ⟨buffer2, back2⟩ := pr
          obtain ⟨hso2, hkl2⟩ := hfl.2 (buffer2, back2) st2 hflr
          have hfq := ihFQ st2 back2 hso2.1 (by
            have := hso2.2.1
            omega)
          cases hfqr : featQualLoop fuel st2 back2 with
          | error e =>
            have he : parseFeature (fuel+1) st = Except.error e := by
              simp only [parseFeature, hs, hflr, hfqr]
            refine ⟨?_, ?_⟩
            · rw [he]
              intro hcon
              have h2 := hfq.1
              rw [hfqr] at h2
              cases hcon
              exact h2 rfl
            · intro evts st' hok
              rw [he] at hok
              exact absurd hok (by simp)
          | ok pq2 =>
            obtain ⟨qevts, st3⟩ := pq2
            obtain ⟨hso3, hev3, hobj3, hkl3⟩ := hfq.2 qevts st3 hfqr
            have he : parseFeature (fuel+1) st
                = Except.ok (.sObj :: .keyE (stringTrim front) :: .sArr :: .sObj
                    :: .keyE ("Location".data) :: .strE buffer2 :: .eObj
                    :: qevts ++ .eArr :: .eObj :: [], st3) := by
              simp only [parseFeature, hs, hflr, hfqr]
            refine ⟨by rw [he]; simp, ?_⟩
            intro evts st' hok
            rw [he] at hok
            simp only [Except.ok.injEq, Prod.mk.injEq] at hok
            obtain ⟨h1, h2⟩ := hok
            subst h1
            subst h2
            refine ⟨hso3.1, ?_, ?_, ?_, ?_, ?_⟩
            · have := hso3.2.1
              have := hso2.2.1
              omega
            · exact List.IsSuffix.trans hso3.2.2
                (List.IsSuffix.trans hso2.2.2 (streamOK_sgetline st hwf).2.2)
            · intro d
              show runD (qevts ++ JEvent.eArr :: JEvent.eObj :: []) (d + 1 + 1)
                = some d
              rw [runD_append, hev3 (d+1+1)]
              simp [runD]
            · intro d m
              obtain ⟨m2, h1, h2⟩ := hobj3 (d+1) (max (max m (d+1)) (d+1+1))
              refine ⟨m2, ?_, ?_⟩
              · show objRun (qevts ++ JEvent.eArr :: JEvent.eObj :: []) (d+1)
                    (max (max m (d+1)) (d+1+1)) = some (d, m2)
                rw [objRun_append, h1]
                simp [objRun]
              · simp at h2 ⊢
                omega
            · intro hg
              exact keepLocus_trans (keepLocus_sgetline st hwf hg)
                (keepLocus_trans hkl2 hkl3)
    · intro st hwf hm
      cases hc : isFeature st.cur with
      | false =>
        have he : featLoop (fuel+1) st = Except.ok ([], st) := by
          simp only [featLoop, hc, Bool.false_eq_true, if_false]
        refine ⟨by rw [he]; simp, ?_⟩
        intro evts st' hok
        rw [he] at hok
        simp only [Except.ok.injEq, Prod.mk.injEq] at hok
        obtain ⟨h1, h2⟩ := hok
        subst h1
        subst h2
        exact ⟨streamOK_rfl st hwf, evOK_nil, objOK_nil 2, keepLocus_rfl st⟩
      | true =>
        have hpf := ihPF st hwf (by omega)
        cases hp : parseFeature fuel st with
        | error e =>
          have he : featLoop (fuel+1) st = Except.error e := by
            simp only [featLoop, hc, if_true, hp]
          refine ⟨?_, ?_⟩
          · rw [he]
            intro hcon
            have h2 := hpf.1
            rw [hp] at h2
            cases hcon
            exact h2 rfl
          · intro evts st' hok
            rw [he] at hok
            exact absurd hok (by simp)
        | ok pq =>
          obtain ⟨evts1, st1⟩ := pq
          obtain ⟨hwf1, hlt1, hsuf1, hev1, hobj1, hkl1⟩ := hpf.2 evts1 st1 hp
          have hrec := ihFP st1 hwf1 (by omega)
          cases hfl : featLoop fuel st1 with
          | error e =>
            have he : featLoop (fuel+1) st = Except.error e := by
              simp only [featLoop, hc, if_true, hp, hfl]
            refine ⟨?_, ?_⟩
            · rw [he]
              intro hcon
              have h2 := hrec.1
              rw [hfl] at h2
              cases hcon
              exact h2 rfl
            · intro evts st' hok
              rw [he] at hok
              exact absurd hok (by simp)
          | ok pq2 =>
            obtain ⟨evts2, st2⟩ := pq2
            obtain ⟨hso2, hev2, hobj2, hkl2⟩ := hrec.2 evts2 st2 hfl
            have he : featLoop (fuel+1) st = Except.ok (evts1 ++ evts2, st2) := by
              simp only [featLoop, hc, if_true, hp, hfl]
            refine ⟨by rw [he]; simp, ?_⟩
            intro evts st' hok
            rw [he] at hok
            simp only [Except.ok.injEq, Prod.mk.injEq] at hok
            obtain ⟨h1, h2⟩ := hok
            subst h1
            subst h2
            exact ⟨streamOK_trans ⟨hwf1, Nat.le_of_lt hlt1, hsuf1⟩ hso2,
              evOK_append hev1 hev2, objOK_append hobj1 hobj2,
              keepLocus_trans (hkl1 (isFeature_not_locus _ hc)) hkl2⟩
    · intro st hwf hm
      have hfl := ihFP (sgetline st) (sgetline_wf st) (by
        have := meas_sgetline_le st
        omega)
      cases hf : featLoop fuel (sgetline st) with
      | error e =>
        have he : parseFeatures (fuel+1) st = Except.error e := by
          simp only [parseFeatures, hf]
        refine ⟨?_, ?_⟩
        · rw [he]
          intro hcon
          have h2 := hfl.1
          rw [hf] at h2
          cases hcon
          exact h2 rfl
        · intro evts st' hok
          rw [he] at hok
          exact absurd hok (by simp)
      | ok pq =>
        obtain ⟨evts1, st1⟩ := pq
        obtain ⟨hso1, hev1, hobj1, hkl1⟩ := hfl.2 evts1 st1 hf
        have he : parseFeatures (fuel+1) st
            = Except.ok (.keyE ("FEATURES".data) :: .sArr :: evts1 ++ .eArr :: [], st1) := by
          simp only [parseFeatures, hf]
        refine ⟨by rw [he]; simp, ?_⟩
        intro evts st' hok
        rw [he] at hok
        simp only [Except.ok.injEq, Prod.mk.injEq] at hok
        obtain ⟨h1, h2⟩ := hok
        subst h1
        subst h2
        have hle := meas_sgetline_le st
        refine ⟨hso1.1, by have := hso1.2.1; omega, ?_, ?_, ?_, ?_, ?_⟩
        · intro heof
          have := meas_sgetline_lt st heof
          have := hso1.2.1
          omega
        · exact List.IsSuffix.trans hso1.2.2 (streamOK_sgetline st hwf).2.2
        · intro d
          show runD (evts1 ++ JEvent.eArr :: []) (d + 1) = some d
          rw [runD_append, hev1 (d+1)]
          simp [runD]
        · intro d m
          obtain ⟨m2, h1, h2⟩ := hobj1 d m
          refine ⟨m2, ?_, ?_⟩
          · show objRun (evts1 ++ JEvent.eArr :: []) d m = some (d, m2)
            rw [objRun_append, h1]
            simp [objRun]
          · simp at h2 ⊢
            omega
        · intro hg
          exact keepLocus_trans (keepLocus_sgetline st hwf hg) hkl1
    · intro st buffer hwf hm
      cases hc : isSequence st.cur with
      | false =>
        have he : seqLoop (fuel+1) st buffer = Except.ok (buffer, st) := by
          simp only [seqLoop, hc, Bool.false_eq_true, if_false]
        refine ⟨by rw [he]; simp, ?_⟩
        intro r st' hok
        rw [he] at hok
        simp only [Except.ok.injEq, Prod.mk.injEq] at hok
        obtain ⟨h1, h2⟩ := hok
        subst h2
        exact ⟨streamOK_rfl st hwf, keepLocus_rfl st⟩
      | true =>
        have hne : st.cur ≠ [] := by
          intro h0
          rw [h0] at hc
          exact absurd hc (by decide)
        have heof : st.eof = false := eof_false_of_cur_ne_nil hwf hne
        have hlt := meas_sgetline_lt st heof
        cases hs : splitSequenceLine st.cur with
        | error e =>
          have he : seqLoop (fuel+1) st buffer = Except.error e := by
            simp only [seqLoop, hc, if_true, hs]
          refine ⟨?_, ?_⟩
          · rw [he]
            intro hcon
            have h2 := splitSequenceLine_ne_oof st.cur
            rw [hs] at h2
            cases hcon
            exact h2 rfl
          · intro r st' hok
            rw [he] at hok
            exact absurd hok (by simp)
        | ok p =>
          obtain ⟨f2, back⟩ := p
          have he : seqLoop (fuel+1) st buffer
              = seqLoop fuel (sgetline st) (buffer ++ back) := by
            simp only [seqLoop, hc, if_true, hs]
          have hrec := ihSL (sgetline st) (buffer ++ back) (sgetline_wf st) (by omega)
          refine ⟨?_, ?_⟩
          · rw [he]
            exact hrec.1
          · intro r st' hok
            rw [he] at hok
            obtain ⟨hso, hkl⟩ := hrec.2 r st' hok
            exact ⟨streamOK_trans (streamOK_sgetline st hwf) hso,
              keepLocus_trans
                (keepLocus_sgetline st hwf (isSequence_not_locus _ hc)) hkl⟩
    · intro st hwf hm
      have hle1 := meas_sgetline_le st
      cases hcg : isContig (sgetline st).cur with
      | true =>
        have hne1 : (sgetline st).cur ≠ [] := by
          intro h0
          rw [h0] at hcg
          exact absurd hcg (by decide)
        have heof1 : (sgetline st).eof = false :=
          eof_false_of_cur_ne_nil (sgetline_wf st) hne1
        have hlt1 := meas_sgetline_lt (sgetline st) heof1
        cases hs : splitLine (sgetline st).cur with
        | error e =>
          have he : parseSequence (fuel+1) st = Except.error e := by
            simp only [parseSequence, hcg, if_true, hs]
          refine ⟨?_, ?_⟩
          · rw [he]
            intro hcon
            have h2 := splitLine_ne_oof (sgetline st).cur
            rw [hs] at h2
            cases hcon
            exact h2 rfl
          · intro evts st' hok
            rw [he] at hok
            exact absurd hok (by simp)
        | ok p =>
          obtain ⟨f, back⟩ := p
          cases hb : backChar back with
          | error e =>
            have he : parseSequence (fuel+1) st = Except.error e := by
              simp only [parseSequence, hcg, if_true, hs, hb]
            refine ⟨?_, ?_⟩
            · rw [he]
              intro hcon
              have h2 := backChar_ne_oof back
              rw [hb] at h2
              cases hcon
              exact h2 rfl
            · intro evts st' hok
              rw [he] at hok
              exact absurd hok (by simp)
          | ok c =>
            have hkc := ihKC (sgetline (sgetline st))
              (stringTrimRight back ++ (if isspaceC c then [' '] else []))
              (sgetline_wf (sgetline st)) (by omega)
            cases hkcr : kwContLoop fuel (sgetline (sgetline st))
                (stringTrimRight back ++ (if isspaceC c then [' '] else [])) with
            | error e =>
              have he : parseSequence (fuel+1) st = Except.error e := by
                simp only [parseSequence, hcg, if_true, hs, hb, hkcr]
              refine ⟨?_, ?_⟩
              · rw [he]
                intro hcon
                have h2 := hkc.1
                rw [hkcr] at h2
                cases hcon
                exact h2 rfl
              · intro evts st' hok
                rw [he] at hok
                exact absurd hok (by simp)
            | ok pq =>
              obtain ⟨buffer2, st2⟩ := pq
              obtain ⟨hso2, hkl2⟩ := hkc.2 buffer2 st2 hkcr
              have he : parseSequence (fuel+1) st
                  = Except.ok (.keyE ("CONTIG".data) :: .sArr
                      :: (if buffer2.isEmpty then JEvent.nullE else .strE buffer2)
                      :: .sArr :: .eArr :: .eArr :: [], st2) := by
                simp only [parseSequence, hcg, if_true, hs, hb, hkcr]
              refine ⟨by rw [he]; simp, ?_⟩
              intro evts st' hok
              rw [he] at hok
              simp only [Except.ok.injEq, Prod.mk.injEq] at hok
              obtain ⟨h1, h2⟩ := hok
              subst h1
              subst h2
              have hle2 := meas_sgetline_le (sgetline st)
              refine ⟨hso2.1, by have := hso2.2.1; omega, ?_, ?_, ?_, ?_, ?_⟩
              · intro _
                have := hso2.2.1
                omega
              · exact List.IsSuffix.trans hso2.2.2
                  (List.IsSuffix.trans (streamOK_sgetline (sgetline st)
                    (sgetline_wf st)).2.2 (streamOK_sgetline st hwf).2.2)
              · intro d
                by_cases hbe : buffer2.isEmpty <;> simp [hbe, runD]
              · intro d m
                by_cases hbe : buffer2.isEmpty <;>
                  exact ⟨m, by simp [hbe, objRun], by simp⟩
              · intro hg
                exact keepLocus_trans (keepLocus_sgetline st hwf hg)
                  (keepLocus_trans (keepLocus_sgetline (sgetline st)
                    (sgetline_wf st) (isContig_not_locus _ hcg)) hkl2)
      | false =>
        cases hsq : isSequence (sgetline st).cur with
        | true =>
          have hsl := ihSL (sgetline st) [] (sgetline_wf st) (by omega)
          cases hslr : seqLoop fuel (sgetline st) [] with
          | error e =>
            have he : parseSequence (fuel+1) st = Except.error e := by
              simp only [parseSequence, hcg, Bool.false_eq_true, if_false,
                hsq, if_true, hslr]
            refine ⟨?_, ?_⟩
            · rw [he]
              intro hcon
              have h2 := hsl.1
              rw [hslr] at h2
              cases hcon
              exact h2 rfl
            · intro evts st' hok
              rw [he] at hok
              exact absurd hok (by simp)
          | ok pq =>
            obtain ⟨buffer2, st2⟩ := pq
            obtain ⟨hso2, hkl2⟩ := hsl.2 buffer2 st2 hslr
            have he : parseSequence (fuel+1) st
                = Except.ok (.keyE ("SEQUENCE".data) :: .sArr
                    :: (if buffer2.isEmpty then JEvent.nullE else .strE buffer2)
                    :: .sArr :: .eArr :: .eArr :: [], st2) := by
              simp only [parseSequence, hcg, Bool.false_eq_true, if_false,
                hsq, if_true, hslr]
            refine ⟨by rw [he]; simp, ?_⟩
            intro evts st' hok
            rw [he] at hok
            simp only [Except.ok.injEq, Prod.mk.injEq] at hok
            obtain ⟨h1, h2⟩ := hok
            subst h1
            subst h2
            refine ⟨hso2.1, by have := hso2.2.1; omega, ?_, ?_, ?_, ?_, ?_⟩
            · intro heof
              have := meas_sgetline_lt st heof
              have := hso2.2.1
              omega
            · exact List.IsSuffix.trans hso2.2.2 (streamOK_sgetline st hwf).2.2
            · intro d
              by_cases hbe : buffer2.isEmpty <;> simp [hbe, runD]
            · intro d m
              by_cases hbe : buffer2.isEmpty <;>
                exact ⟨m, by simp [hbe, objRun], by simp⟩
            · intro hg
              exact keepLocus_trans (keepLocus_sgetline st hwf hg) hkl2
        | false =>
          have he : parseSequence (fuel+1) st = Except.ok ([], sgetline st) := by
            simp only [parseSequence, hcg, hsq, Bool.false_eq_true, if_false]
          refine ⟨by rw [he]; simp, ?_⟩
          intro evts st' hok
          rw [he] at hok
          simp only [Except.ok.injEq, Prod.mk.injEq] at hok
          obtain ⟨h1, h2⟩ := hok
          subst h1
          subst h2
          refine ⟨sgetline_wf st, hle1, fun heof => meas_sgetline_lt st heof,
            (streamOK_sgetline st hwf).2.2, evOK_nil, objOK_nil 0, ?_⟩
          intro hg
          exact keepLocus_sgetline st hwf hg
    · intro st hwf heof hm
      cases hloc : isLocus st.cur with
      | true =>
        cases hpl : parseLocus st with
        | error e =>
          have he : parseItem (fuel+1) st = Except.error e := by
            simp only [parseItem, hloc, if_true, hpl]
          refine ⟨?_, ?_⟩
          · rw [he]
            intro hcon
            have h2 := parseLocus_ne_oof st
            rw [hpl] at h2
            cases hcon
            exact h2 rfl
          · intro evts st' hok
            rw [he] at hok
            exact absurd hok (by simp)
        | ok pq =>
          obtain ⟨levts, st1⟩ := pq
          obtain ⟨hst1, hev, hobj⟩ := parseLocus_ok st levts st1 hpl
          subst hst1
          have he : parseItem (fuel+1) st
              = Except.ok (.sArr :: .sObj :: levts ++ .eObj :: [], sgetline st) := by
            simp only [parseItem, hloc, if_true, hpl]
          refine ⟨by rw [he]; simp, ?_⟩
          intro evts st' hok
          rw [he] at hok
          simp only [Except.ok.injEq, Prod.mk.injEq] at hok
          obtain ⟨h1, h2⟩ := hok
          subst h1
          subst h2
          refine ⟨sgetline_wf st, meas_sgetline_lt st heof,
            (streamOK_sgetline st hwf).2.2, ?_, ?_, ?_⟩
          · intro d m
            obtain ⟨m2, h1, h2⟩ := (objOK_obj_wrap hobj (objOK_nil 1)) d m
            refine ⟨m2, ?_, ?_⟩
            · show objRun (JEvent.sObj :: levts ++ JEvent.eObj :: []) d m = some (d, m2)
              exact h1
            · simp at h2 ⊢
              omega
          · intro _ d
            show runD (levts ++ JEvent.eObj :: []) (d + 1 + 1) = some (d + 1)
            rw [runD_append, hev (d+1+1)]
            simp [runD]
          · intro h0
            exact absurd h0 (by simp)
      | false =>
        cases hend : isEnd st.cur with
        | true =>
          have he : parseItem (fuel+1) st = Except.ok (.eArr :: [], sgetline st) := by
            simp only [parseItem, hloc, Bool.false_eq_true, if_false, hend, if_true]
          refine ⟨by rw [he]; simp, ?_⟩
          intro evts st' hok
          rw [he] at hok
          simp only [Except.ok.injEq, Prod.mk.injEq] at hok
          obtain ⟨h1, h2⟩ := hok
          subst h1
          subst h2
          refine ⟨sgetline_wf st, meas_sgetline_lt st heof,
            (streamOK_sgetline st hwf).2.2, ?_, ?_, ?_⟩
          · intro d m
            exact ⟨m, by simp [objRun], by simp⟩
          · intro h0
            exact absurd h0 (by simp)
          · intro _ h1
            exact absurd h1 (by simp)
        | false =>
          cases horig : isOrigin st.cur with
          | true =>
            cases hpo : parseOrigin st with
            | error e =>
              have he : parseItem (fuel+1) st = Except.error e := by
                simp only [parseItem, hloc, Bool.false_eq_true, if_false, hend,
                  horig, if_true, hpo]
              refine ⟨?_, ?_⟩
              · rw [he]
                intro hcon
                have h2 := parseOrigin_ne_oof st
                rw [hpo] at h2
                cases hcon
                exact h2 rfl
              · intro evts st' hok
                rw [he] at hok
                exact absurd hok (by simp)
            | ok pq =>
              obtain ⟨e1, st1⟩ := pq
              obtain ⟨hst1, hev1, hobj1⟩ := parseOrigin_ok st e1 st1 hpo
              rw [hst1] at hpo
              have hps := ihPS st hwf (by omega)
              cases hpsr : parseSequence fuel st with
              | error e =>
                have he : parseItem (fuel+1) st = Except.error e := by
                  simp only [parseItem, hloc, Bool.false_eq_true, if_false, hend,
                    horig, if_true, hpo, hpsr]
                refine ⟨?_, ?_⟩
                · rw [he]
                  intro hcon
                  have h2 := hps.1
                  rw [hpsr] at h2
                  cases hcon
                  exact h2 rfl
                · intro evts st' hok
                  rw [he] at hok
                  exact absurd hok (by simp)
              | ok pq2 =>
                obtain ⟨e2, st2⟩ := pq2
                obtain ⟨hwf2, hle2, hstr2, hsuf2, hev2, hobj2, hkl2⟩ :=
                  hps.2 e2 st2 hpsr
                have he : parseItem (fuel+1) st
                    = Except.ok (.sObj :: e1 ++ .eObj :: .sObj :: e2
                        ++ .eObj :: [], st2) := by
                  simp only [parseItem, hloc, Bool.false_eq_true, if_false, hend,
                    horig, if_true, hpo, hpsr]
                refine ⟨by rw [he]; simp, ?_⟩
                intro evts st' hok
                rw [he] at hok
                simp only [Except.ok.injEq, Prod.mk.injEq] at hok
                obtain ⟨h1, h2⟩ := hok
                subst h1
                subst h2
                refine ⟨hwf2, hstr2 heof, hsuf2, ?_, ?_, ?_⟩
                · have hb : objOK (JEvent.sObj :: e2 ++ JEvent.eObj :: []) (2+1) :=
                    objOK_mono (objOK_obj_wrap hobj2 (objOK_nil 1)) (by omega)
                  show objOK (JEvent.sObj :: e1 ++ JEvent.eObj :: JEvent.sObj :: e2
                    ++ JEvent.eObj :: []) (2+1)
                  have hl : (JEvent.sObj :: e1 ++ JEvent.eObj :: JEvent.sObj :: e2
                      ++ JEvent.eObj :: [])
                      = JEvent.sObj :: e1 ++ JEvent.eObj
                        :: (JEvent.sObj :: e2 ++ JEvent.eObj :: []) := by
                    simp
                  rw [hl]
                  exact objOK_obj_wrap (objOK_mono hobj1 (by omega)) hb
                · intro h0
                  exact absurd h0 (by simp)
                · intro _ _
                  refine ⟨?_, hkl2 hloc⟩
                  have hl : (JEvent.sObj :: e1 ++ JEvent.eObj :: JEvent.sObj :: e2
                      ++ JEvent.eObj :: [])
                      = JEvent.sObj :: e1 ++ JEvent.eObj
                        :: (JEvent.sObj :: e2 ++ JEvent.eObj :: []) := by
                    simp
                  rw [hl]
                  exact evOK_obj_wrap hev1 (evOK_obj_wrap hev2 evOK_nil)
          | false =>
            cases hkw : (isKeyword st.cur && !isFeatureHeader st.cur) with
            | true =>
              have hpk := ihPK st 0 hwf (by omega) (by omega)
              cases hpkr : parseKeyword fuel st 0 with
              | error e =>
                have he : parseItem (fuel+1) st = Except.error e := by
                  simp only [parseItem, hloc, Bool.false_eq_true, if_false, hend,
                    horig, hkw, if_true, hpkr]
                refine ⟨?_, ?_⟩
                · rw [he]
                  intro hcon
                  have h2 := hpk.1
                  rw [hpkr] at h2
                  cases hcon
                  exact h2 rfl
                · intro evts st' hok
                  rw [he] at hok
                  exact absurd hok (by simp)
              | ok pq =>
                obtain ⟨evts1, st1⟩ := pq
                obtain ⟨hwf1, hlt1, hsuf1, hev1, hobj1, hkl1⟩ := hpk.2 evts1 st1 hpkr
                have he : parseItem (fuel+1) st
                    = Except.ok (.sObj :: evts1 ++ .eObj :: [], st1) := by
                  simp only [parseItem, hloc, Bool.false_eq_true, if_false, hend,
                    horig, hkw, if_true, hpkr]
                refine ⟨by rw [he]; simp, ?_⟩
                intro evts st' hok
                rw [he] at hok
                simp only [Except.ok.injEq, Prod.mk.injEq] at hok
                obtain ⟨h1, h2⟩ := hok
                subst h1
                subst h2
                refine ⟨hwf1, hlt1, hsuf1, ?_, ?_, ?_⟩
                · show objOK (JEvent.sObj :: evts1 ++ JEvent.eObj :: []) (2+1)
                  exact objOK_obj_wrap (hobj1 : objOK evts1 2) (objOK_nil (2+1))
                · intro h0
                  exact absurd h0 (by simp)
                · intro _ _
                  exact ⟨evOK_obj_wrap hev1 evOK_nil, hkl1 hloc⟩
            | false =>
              cases hfh : isFeatureHeader st.cur with
              | true =>
                have hpfs := ihPFS st hwf (by omega)
                cases hpfr : parseFeatures fuel st with
                | error e =>
                  have he : parseItem (fuel+1) st = Except.error e := by
                    simp only [parseItem, hloc, Bool.false_eq_true, if_false, hend,
                      horig, hfh, Bool.not_true, Bool.and_false, if_true, hpfr]
                  refine ⟨?_, ?_⟩
                  · rw [he]
                    intro hcon
                    have h2 := hpfs.1
                    rw [hpfr] at h2
                    cases hcon
                    exact h2 rfl
                  · intro evts st' hok
                    rw [he] at hok
                    exact absurd hok (by simp)
                | ok pq =>
                  obtain ⟨evts1, st1⟩ := pq
                  obtain ⟨hwf1, hle1, hstr1, hsuf1, hev1, hobj1, hkl1⟩ :=
                    hpfs.2 evts1 st1 hpfr
                  have he : parseItem (fuel+1) st
                      = Except.ok (.sObj :: evts1 ++ .eObj :: [], st1) := by
                    simp only [parseItem, hloc, Bool.false_eq_true, if_false, hend,
                      horig, hfh, Bool.not_true, Bool.and_false, if_true, hpfr]
                  refine ⟨by rw [he]; simp, ?_⟩
                  intro evts st' hok
                  rw [he] at hok
                  simp only [Except.ok.injEq, Prod.mk.injEq] at hok
                  obtain ⟨h1, h2⟩ := hok
                  subst h1
                  subst h2
                  refine ⟨hwf1, hstr1 heof, hsuf1, ?_, ?_, ?_⟩
                  · show objOK (JEvent.sObj :: evts1 ++ JEvent.eObj :: []) (2+1)
                    exact objOK_obj_wrap hobj1 (objOK_nil (2+1))
                  · intro h0
                    exact absurd h0 (by simp)
                  · intro _ _
                    exact ⟨evOK_obj_wrap hev1 evOK_nil, hkl1 hloc⟩
              | false =>
                have hkw2 : isKeyword st.cur = false := by
                  rw [hfh] at hkw
                  simpa using hkw
                have he : parseItem (fuel+1) st = Except.ok ([], sgetline st) := by
                  simp only [parseItem, hloc, hend, horig, hfh, hkw2, Bool.not_false,
                    Bool.and_true, Bool.false_eq_true, if_false]
                refine ⟨by rw [he]; simp, ?_⟩
                intro evts st' hok
                rw [he] at hok
                simp only [Except.ok.injEq, Prod.mk.injEq] at hok
                obtain ⟨h1, h2⟩ := hok
                subst h1
                subst h2
                refine ⟨sgetline_wf st, meas_sgetline_lt st heof,
                  (streamOK_sgetline st hwf).2.2, objOK_nil 3, ?_, ?_⟩
                · intro h0
                  exact absurd h0 (by simp)
                · intro _ _
                  exact ⟨evOK_nil, keepLocus_sgetline st hwf hloc⟩
    · intro st hwf hm
      cases heof : st.eof with
      | true =>
        have he : gbLoop (fuel+1) st = Except.ok ([], st) := by
          simp only [gbLoop, heof, if_true]
        refine ⟨by rw [he]; simp, ?_⟩
        intro evts st' hok
        rw [he] at hok
        simp only [Except.ok.injEq, Prod.mk.injEq] at hok
        obtain ⟨h1, h2⟩ := hok
        subst h1
        subst h2
        refine ⟨objOK_nil 3, ?_⟩
        intro _
        refine ⟨0, fun d => by simp [runD], ?_⟩
        rintro ⟨l, hl, -⟩
        rw [slines_eof heof] at hl
        exact absurd hl (by simp)
      | false =>
        have hpi := ihPI st hwf heof (by omega)
        cases hpir : parseItem fuel st with
        | error e =>
          have he : gbLoop (fuel+1) st = Except.error e := by
            simp only [gbLoop, heof, Bool.false_eq_true, if_false, hpir]
          refine ⟨?_, ?_⟩
          · rw [he]
            intro hcon
            have h2 := hpi.1
            rw [hpir] at h2
            cases hcon
            exact h2 rfl
          · intro evts st' hok
            rw [he] at hok
            exact absurd hok (by simp)
        | ok pq =>
          obtain ⟨evts1, st1⟩ := pq
          obtain ⟨hwf1, hlt1, hsuf1, hobj1, hlocrun, hnon⟩ := hpi.2 evts1 st1 hpir
          have hgb := ihGB st1 hwf1 (by omega)
          cases hgbr : gbLoop fuel st1 with
          | error e =>
            have he : gbLoop (fuel+1) st = Except.error e := by
              simp only [gbLoop, heof, Bool.false_eq_true, if_false, hpir, hgbr]
            refine ⟨?_, ?_⟩
            · rw [he]
              intro hcon
              have h2 := hgb.1
              rw [hgbr] at h2
              cases hcon
              exact h2 rfl
            · intro evts st' hok
              rw [he] at hok
              exact absurd hok (by simp)
          | ok pq2 =>
            obtain ⟨evts2, st2⟩ := pq2
            obtain ⟨hobj2, hkfun⟩ := hgb.2 evts2 st2 hgbr
            have he : gbLoop (fuel+1) st = Except.ok (evts1 ++ evts2, st2) := by
              simp only [gbLoop, heof, Bool.false_eq_true, if_false, hpir, hgbr]
            refine ⟨by rw [he]; simp, ?_⟩
            intro evts st' hok
            rw [he] at hok
            simp only [Except.ok.injEq, Prod.mk.injEq] at hok
            obtain ⟨h1, h2⟩ := hok
            subst h1
            subst h2
            refine ⟨objOK_append hobj1 hobj2, ?_⟩
            intro hnoEnd
            have hnoEnd1 : ∀ l ∈ slines st1, isEnd l = false :=
              noEnd_of_suffix hsuf1 hnoEnd
            obtain ⟨k2, hrun2, hk2⟩ := hkfun hnoEnd1
            have hendcur : isEnd st.cur = false := hnoEnd st.cur (cur_mem_slines heof)
            cases hloc : isLocus st.cur with
            | true =>
              refine ⟨1 + k2, ?_, fun _ => by omega⟩
              intro d
              rw [runD_append, hlocrun hloc d]
              show runD evts2 (d+1) = some (d + (1 + k2))
              rw [show d + (1 + k2) = d + 1 + k2 from by omega]
              exact hrun2 (d+1)
            | false =>
              obtain ⟨hev1, hkl1⟩ := hnon hloc hendcur
              refine ⟨k2, ?_, ?_⟩
              · intro d
                rw [runD_append, hev1 d]
                show runD evts2 d = some (d + k2)
                exact hrun2 d
              · rintro ⟨l, hl, hll⟩
                exact hk2 ⟨l, hkl1 l hll hl, hll⟩

theorem gbLoop_inv (fuel : Nat) (st : GBStream) (hwf : wfS st)
    (hm : meas st + 6 ≤ fuel) :
    gbLoop fuel st ≠ Except.error GBFail.outOfFuel ∧
    ∀ evts st', gbLoop fuel st = Except.ok (evts, st') →
      objOK evts 3 ∧
      ((∀ l ∈ slines st, isEnd l = false) →
        ∃ k, (∀ d, runD evts d = some (d + k)) ∧
          ((∃ l, l ∈ slines st ∧ isLocus l = true) → 1 ≤ k)) :=
  (parserInv fuel).2.2.2.2.2.2.2.2.2.2.2.2.2 st hwf hm

theorem wfS_start (gb : List Char) : wfS { cur := [], rest := gb, eof := false } :=
  fun h => absurd h (by simp)

theorem start_meas_bound (gb : List Char) :
    meas (sgetline { cur := [], rest := gb, eof := false }) + 6 ≤ gb.length + 8 := by
  have h := meas_sgetline_le { cur := [], rest := gb, eof := false }
  have hmX : meas { cur := ([] : List Char), rest := gb, eof := false }
      = gb.length + 1 := by
    simp [meas]
  omega

theorem start_slines (gb : List Char) :
    slines (sgetline { cur := [], rest := gb, eof := false }) = linesOf gb := by
  rw [slines_sgetline _ (wfS_start gb)]
  simp [slines]

/-- C2: on any GenBank text that contains a LOCUS line but no terminating
`//` line, `gb2json` leaves the writer incomplete (the event stream is
unbalanced), raises the Incomplete GenBank error on `gberror`, and never
assigns the JSON output parameter. -/
theorem c2_missing_end_incomplete (gb : List Char) (out : GB2JOut)
    (hok : gb2json gb = Except.ok out)
    (hloc : ∃ l, l ∈ linesOf gb ∧ isLocus l = true)
    (hend : ∀ l ∈ linesOf gb, isEnd l = false) :
    out.json = none
      ∧ out.err = gberror.mk true ("Incomplete GenBank".data) ("gb2json".data)
      ∧ ∀ evtsF, gb2jsonEvents gb = Except.ok evtsF → writerComplete evtsF = false := by
  have hgi := gbLoop_inv (gb.length + 8) (sgetline { cur := [], rest := gb, eof := false })
    (sgetline_wf _) (start_meas_bound gb)
  cases hgl : gbLoop (gb.length + 8) (sgetline { cur := [], rest := gb, eof := false }) with
  | error e =>
    exfalso
    simp only [gb2json, gb2jsonEvents, hgl] at hok
    exact absurd hok (by simp)
  | ok pq =>
    obtain ⟨evts, stF⟩ := pq
    obtain ⟨hobj, hfun⟩ := hgi.2 evts stF hgl
    obtain ⟨k, hrun, hk1⟩ := hfun (by rw [start_slines]; exact hend)
    have hkge : 1 ≤ k := hk1 (by rw [start_slines]; exact hloc)
    obtain ⟨k', rfl⟩ : ∃ k', k = k' + 1 := ⟨k - 1, by omega⟩
    have hrunFull : runD (JEvent.sArr :: evts ++ JEvent.eArr :: []) 0 = some (k' + 1) := by
      show runD (evts ++ JEvent.eArr :: []) 1 = some (k' + 1)
      rw [runD_append, hrun 1]
      rw [show 1 + (k' + 1) = k' + 1 + 1 from by omega]
      simp [runD]
    have hwc : writerComplete (JEvent.sArr :: evts ++ JEvent.eArr :: []) = false := by
      unfold writerComplete
      rw [hrunFull]
      simp
    have hge : gb2jsonEvents gb
        = Except.ok (JEvent.sArr :: evts ++ JEvent.eArr :: []) := by
      simp only [gb2jsonEvents, hgl]
    simp only [gb2json, hge, hwc, Bool.false_eq_true, if_false] at hok
    simp only [Except.ok.injEq] at hok
    subst hok
    refine ⟨rfl, rfl, ?_⟩
    intro evtsF hF
    rw [hge] at hF
    simp only [Except.ok.injEq] at hF
    subst hF
    exact hwc

/-- C7: the object nesting of any successful gb2json event stream never
exceeds three levels (Keyword, Subkeyword, Subsubkeyword), and parseKeyword
at level 2 always returns an empty sub-item sequence: its events are exactly
the key, the value and the two closing array markers. -/
theorem c7_nesting_bound :
    (∀ gb out evts, gb2json gb = Except.ok out → out.json = some evts →
      ∃ m2, objRun evts 0 0 = some (0, m2) ∧ m2 ≤ 3) ∧
    (∀ fuel st evts st', parseKeyword fuel st 2 = Except.ok (evts, st') →
      ∃ f b, evts = JEvent.keyE f :: JEvent.sArr :: JEvent.strE b
        :: JEvent.sArr :: JEvent.eArr :: JEvent.eArr :: []) := by
  constructor
  · intro gb out evts hok hjson
    have hgi := gbLoop_inv (gb.length + 8)
      (sgetline { cur := [], rest := gb, eof := false })
      (sgetline_wf _) (start_meas_bound gb)
    cases hgl : gbLoop (gb.length + 8)
        (sgetline { cur := [], rest := gb, eof := false }) with
    | error e =>
      exfalso
      simp only [gb2json, gb2jsonEvents, hgl] at hok
      exact absurd hok (by simp)
    | ok pq =>
      obtain ⟨gevts, stF⟩ := pq
      obtain ⟨hobj, -⟩ := hgi.2 gevts stF hgl
      have hge : gb2jsonEvents gb
          = Except.ok (JEvent.sArr :: gevts ++ JEvent.eArr :: []) := by
        simp only [gb2jsonEvents, hgl]
      by_cases hwc : writerComplete (JEvent.sArr :: gevts ++ JEvent.eArr :: []) = true
      · simp only [gb2json, hge, hwc, if_true] at hok
        simp only [Except.ok.injEq] at hok
        subst hok
        simp only [Option.some.injEq] at hjson
        subst hjson
        obtain ⟨m2, h1, h2⟩ := hobj 0 0
        refine ⟨m2, ?_, ?_⟩
        · show objRun (gevts ++ JEvent.eArr :: []) 0 0 = some (0, m2)
          rw [objRun_append, h1]
          simp [objRun]
        · simpa using h2
      · simp only [gb2json, hge] at hok
        rw [if_neg hwc] at hok
        simp only [Except.ok.injEq] at hok
        subst hok
        exact absurd hjson (by simp)
  · intro fuel st evts st' h
    cases fuel with
    | zero => exact absurd h (by simp [parseKeyword])
    | succ f =>
      cases hs : splitLine st.cur with
      | error e =>
        simp only [parseKeyword, hs] at h
        exact absurd h (by simp)
      | ok p =>
        obtain ⟨front, back⟩ := p
        cases hb : backChar back with
        | error e =>
          simp only [parseKeyword, hs, hb] at h
          exact absurd h (by simp)
        | ok c =>
          cases f with
          | zero =>
            simp only [parseKeyword, hs, hb, kwContLoop] at h
            exact absurd h (by simp)
          | succ f2 =>
            cases hkc : kwContLoop (f2+1) (sgetline st)
                (stringTrimRight back ++ (if isspaceC c then [' '] else [])) with
            | error e =>
              simp only [parseKeyword, hs, hb, hkc] at h
              exact absurd h (by simp)
            | ok pq =>
              obtain ⟨buffer2, st2⟩ := pq
              have hks : kwSubLoop (f2+1) st2 2 = Except.ok ([], st2) := by
                simp only [kwSubLoop]
                rw [if_neg (by omega)]
              simp only [parseKeyword, hs, hb, hkc, hks, List.nil_append] at h
              simp only [Except.ok.injEq, Prod.mk.injEq] at h
              obtain ⟨h1, h2⟩ := h
              exact ⟨stringTrim front, buffer2, h1.symm⟩

/-- Witness for C2 at the concrete input `LOCUS       test  \n`. -/
theorem c2_missing_end_incomplete_witness :
    gb2json c2input = Except.ok c2out
      ∧ (c2out.json = none
        ∧ c2out.err = gberror.mk true ("Incomplete GenBank".data) ("gb2json".data)
        ∧ ∀ evtsF, gb2jsonEvents c2input = Except.ok evtsF
            → writerComplete evtsF = false) :=
  ⟨by decide, c2_missing_end_incomplete c2input c2out (by decide)
    ⟨("LOCUS       test  ").data, by decide, by decide⟩ (by decide)⟩

/-- Witness for C7 at the concrete record `LOCUS       test  \n//\n` and a
concrete level-2 keyword line. -/
theorem c7_nesting_bound_witness :
    (gb2json c7input = Except.ok c7out ∧ c7out.json = some c7evts
      ∧ ∃ m2, objRun c7evts 0 0 = some (0, m2) ∧ m2 ≤ 3)
    ∧ (parseKeyword 2 c7kwStream 2 = Except.ok (c7kwEvts, GBStream.mk [] [] true)
      ∧ ∃ f b, c7kwEvts = JEvent.keyE f :: JEvent.sArr :: JEvent.strE b
          :: JEvent.sArr :: JEvent.eArr :: JEvent.eArr :: []) :=
  ⟨⟨by decide, by decide,
    c7_nesting_bound.1 c7input c7out c7evts (by decide) (by decide)⟩,
   ⟨by decide,
    c7_nesting_bound.2 2 c7kwStream c7kwEvts (GBStream.mk [] [] true) (by decide)⟩⟩

end GBJ
